import Mathlib

/-!
# scratch-note: filename generation and argument parsing

A shallow embedding of `utils/file.go` (`GenerateFileName`, `cleanTitle`), of
`main.go` (`ParseArgs`, `CreateScratchNote`) and of `config/config.go` (`ExpandPath`),
together with the parts of the Go standard library they call (`time.Time.Format`,
`time.Parse`, `strings.ReplaceAll`, `strings.Trim`, `regexp.ReplaceAllString`,
`filepath.Join`, `os.Stat`, `os.WriteFile`), instantiated at the arguments the program
passes.  The filesystem and the record of editor launches are an explicit state.

Go strings are byte strings.  The model takes the well-formed UTF-8 ones and reads
them as sequences of code points (`String`, `List Char`); `len` is the number of
bytes of the encoding.  Every character the program tests for is ASCII, where bytes
and code points coincide.
-/

namespace ScratchNote

/-! ## Strings -/

/-- Go's `len(s)`: the number of bytes of `s`. -/
def len (s : String) : Nat := s.utf8ByteSize

/-- Go's `strings.HasSuffix(s, suffix)`. -/
def HasSuffix (s suffix : String) : Bool := suffix.data.isSuffixOf s.data

/-- The scanning loop shared by `strings.ReplaceAll` and `regexp.ReplaceAllString`:
walk the text from the left; where a match starts (`matchAt` gives its length, `0`
for no match) emit the replacement and skip the matched characters, otherwise copy
one character.  The first argument counts the characters of the current match that
are still to be skipped. -/
def replaceMatches (matchAt : List Char → Nat) (repl : List Char) :
    Nat → List Char → List Char
  | _, [] => []
  | skip + 1, _ :: rest => replaceMatches matchAt repl skip rest
  | 0, c :: rest =>
    match matchAt (c :: rest) with
    | 0 => c :: replaceMatches matchAt repl 0 rest
    | n + 1 => repl ++ replaceMatches matchAt repl n rest

/-- A literal pattern matches where it is a prefix of the remaining text. -/
def matchLiteral (old : List Char) (s : List Char) : Nat :=
  if old.isPrefixOf s then old.length else 0

/-- Go's `strings.ReplaceAll(s, old, new)` for a non-empty `old`. -/
def ReplaceAll (s old new : List Char) : List Char :=
  replaceMatches (matchLiteral old) new 0 s

/-- The members of the character class in the pattern `[/\\:*?"<>|]`. -/
def specialChars : List Char := ['/', '\\', ':', '*', '?', '"', '<', '>', '|']

/-- The pattern `[/\\:*?"<>|]` matches one character of the class. -/
def matchSpecial : List Char → Nat
  | [] => 0
  | c :: _ => if c ∈ specialChars then 1 else 0

/-- The pattern `-+` matches a longest run of hyphens. -/
def matchHyphens (s : List Char) : Nat := (s.takeWhile (fun c => c == '-')).length

/-- Go's `regexp.ReplaceAllString` for a pattern given by its match function and a
replacement text without `$`. -/
def ReplaceAllString (matchAt : List Char → Nat) (src repl : List Char) : List Char :=
  replaceMatches matchAt repl 0 src

/-- Go's `strings.Trim(s, cutset)` for a cutset of one ASCII character `c`:
`trimLeftByte(trimRightByte(s, c), c)`. -/
def Trim (s : List Char) (c : Char) : List Char :=
  (s.rdropWhile (fun x => x == c)).dropWhile (fun x => x == c)

/-! ## Timestamps -/

/-- Go's `isLeap`. -/
def isLeap (year : Int) : Bool := year % 4 == 0 && (year % 100 != 0 || year % 400 == 0)

/-- Go's `daysIn(month, year)`. -/
def daysIn (month : Nat) (year : Int) : Nat :=
  if month = 2 then (if isLeap year then 29 else 28)
  else if month = 4 ∨ month = 6 ∨ month = 9 ∨ month = 11 then 30
  else 31

/-- A `time.Time`, given by the calendar reading of the instant in its own location:
the values `t.Date()`, `t.Clock()` and `t.Nanosecond()` return, which is all that
`Format` consults for a layout without zone.  Go's years are not confined to four
digits. -/
structure Time where
  year : Int
  month : Nat
  day : Nat
  hour : Nat
  minute : Nat
  second : Nat
  nsec : Nat
  month_ok : 1 ≤ month ∧ month ≤ 12
  day_ok : 1 ≤ day ∧ day ≤ daysIn month year
  hour_ok : hour < 24
  minute_ok : minute < 60
  second_ok : second < 60
  nsec_ok : nsec < 1000000000

/-- The byte `'0' + d`. -/
def digit (d : Nat) : Char := Char.ofNat (48 + d)

/-- The loop of `appendInt` that counts the decimal digits of `u`:
`for u2 := u; u2 > 0; u2 /= 10 { n++ }`. -/
def countDigits : Nat → Nat → Nat
  | 0, _ => 0
  | fuel + 1, u => if u > 0 then countDigits fuel (u / 10) + 1 else 0

/-- The loop of `appendInt` that writes the decimal digits of `u` from the right:
`for u >= 10 { i--; b[i] = '0' + u%10; u /= 10 }; i--; b[i] = '0' + u`. -/
def assembleDigits : Nat → Nat → List Char → List Char
  | 0, u, acc => digit u :: acc
  | fuel + 1, u, acc =>
    if u ≥ 10 then assembleDigits fuel (u / 10) (digit (u % 10) :: acc)
    else digit u :: acc

/-- Go's `appendInt(b, x, width)` from package `time`, as the text it appends: a
minus sign for a negative `x`, then the magnitude in decimal, left-padded with zeros
to `width` digits ("if the decimal form (excluding sign) is shorter than width, the
result is padded with leading 0's").  Two-digit and four-digit fields take the direct
path; the general path counts the digits, pads, and writes the digits. -/
def appendInt (x : Int) (width : Nat) : List Char :=
  let u := x.natAbs
  let sign := if x < 0 then ['-'] else []
  if width = 2 ∧ u < 100 then
    sign ++ [digit (u / 10), digit (u % 10)]
  else if width = 4 ∧ u < 10000 then
    sign ++ [digit (u / 1000), digit (u / 100 % 10), digit (u / 10 % 10), digit (u % 10)]
  else
    let n := if u = 0 then 1 else countDigits u u
    sign ++ List.replicate (width - n) '0' ++ assembleDigits u u []

/-- The text of `t.Format("2006-01-02_150405")`: the layout is the chunks
`2006` (year, width 4), `-`, `01` (month, width 2), `-`, `02` (day, width 2), `_`,
`15` (hour, width 2), `04` (minute, width 2), `05` (second, width 2). -/
def formatChars (t : Time) : List Char :=
  appendInt t.year 4 ++ ['-'] ++ appendInt t.month 2 ++ ['-'] ++ appendInt t.day 2 ++ ['_']
    ++ appendInt t.hour 2 ++ appendInt t.minute 2 ++ appendInt t.second 2

/-- Go's `t.Format("2006-01-02_150405")`. -/
def Format (t : Time) : String := ⟨formatChars t⟩

/-! ## `utils/file.go` -/

/-- The source's `cleanTitle`, on the characters of the title. -/
def cleanTitleChars (title : List Char) : List Char :=
  -- Replace spaces with hyphens
  let cleaned := ReplaceAll title [' '] ['-']
  -- Remove or replace special characters with hyphens
  let cleaned := ReplaceAllString matchSpecial cleaned ['-']
  -- Remove multiple consecutive hyphens
  let cleaned := ReplaceAllString matchHyphens cleaned ['-']
  -- Trim hyphens from start and end
  Trim cleaned '-'

/-- The source's `cleanTitle`. -/
def cleanTitle (title : String) : String := ⟨cleanTitleChars title.data⟩

/-- The source's `GenerateFileName`. -/
def GenerateFileName (title : String) (t : Time) : String :=
  let timestamp := Format t
  if title = "" then
    timestamp ++ ".md"
  else
    timestamp ++ "_" ++ cleanTitle title ++ ".md"

/-- The instant `time.Date(2025, 8, 16, 14, 30, 45, 0, time.UTC)` of the tests. -/
def t20250816 : Time :=
  ⟨2025, 8, 16, 14, 30, 45, 0, by decide, by decide, by decide, by decide, by decide, by decide⟩

/-- The instant `time.Date(2025, 12, 25, 9, 5, 30, 0, time.UTC)` of the tests. -/
def t20251225 : Time :=
  ⟨2025, 12, 25, 9, 5, 30, 0, by decide, by decide, by decide, by decide, by decide, by decide⟩

/-- The instant `time.Date(2025, 1, 1, 0, 0, 0, 0, time.UTC)` of the tests. -/
def t20250101 : Time :=
  ⟨2025, 1, 1, 0, 0, 0, 0, by decide, by decide, by decide, by decide, by decide, by decide⟩

/-- The instant `time.Date(10000, 1, 1, 0, 0, 0, 0, time.UTC)`, the first with a year
of five digits. -/
def t100000101 : Time :=
  ⟨10000, 1, 1, 0, 0, 0, 0, by decide, by decide, by decide, by decide, by decide, by decide⟩

/-! ## `time.Parse` with the layout `2006-01-02_150405` -/

/-- Go's `isDigit(s, i)` on the character at that place: `'0' <= c && c <= '9'`. -/
def isDigit (c : Char) : Bool := decide ('0' ≤ c ∧ c ≤ '9')

/-- The value `c - '0'` of a digit. -/
def digitVal (c : Char) : Nat := c.toNat - 48

/-- Go's `skip(value, prefix)` for a prefix of one character that is not a space. -/
def skip (value : List Char) (p : Char) : Option (List Char) :=
  match value with
  | [] => none
  | c :: rest => if c = p then some rest else none

/-- Go's `getnum(s, fixed)`: one or two leading digits, two when `fixed`. -/
def getnum (s : List Char) (fixed : Bool) : Option (Nat × List Char) :=
  match s with
  | [] => none
  | c0 :: rest0 =>
    if isDigit c0 then
      match rest0 with
      | [] => if fixed then none else some (digitVal c0, rest0)
      | c1 :: rest1 =>
        if isDigit c1 then some (digitVal c0 * 10 + digitVal c1, rest1)
        else if fixed then none else some (digitVal c0, rest0)
    else none

/-- Go's `leadingInt` on a text of digits: `x = x*10 + (c - '0')` from the left. -/
def digitsValue (s : List Char) : Nat := s.foldl (fun x c => x * 10 + digitVal c) 0

/-- Reading back a signed decimal numeral, as Go's `atoi` does: an optional minus
sign, then the digits. -/
def signedValue (s : List Char) : Int :=
  match s with
  | '-' :: rest => -(digitsValue rest : Int)
  | _ => (digitsValue s : Int)

/-- The special case after the seconds field: a `.` or `,` followed by a digit starts
a fractional second although the layout has none.  All the digits are consumed; the
first nine give the nanoseconds (`parseNanoseconds`). -/
def fraction (value : List Char) : Nat × List Char :=
  match value with
  | sep :: d :: rest =>
    if (sep = '.' ∨ sep = ',') ∧ isDigit d then
      let ds := (d :: rest).takeWhile isDigit
      let used := ds.take 9
      (digitsValue used * 10 ^ (9 - used.length), (d :: rest).dropWhile isDigit)
    else (0, value)
  | _ => (0, value)

/-- Go's `time.Parse("2006-01-02_150405", value)`, `none` for a parse error.  The
fields are read in the order of the layout; the month, hour, minute and second are
range-checked as they are read and the day once everything is read.  The time
returned is `Date(year, month, day, hour, min, sec, nsec, UTC)`, whose calendar
reading is the validated fields themselves. -/
def Parse (value : List Char) : Option Time :=
  match value with
  | y0 :: y1 :: y2 :: y3 :: value =>
    -- stdLongYear: four characters, all digits (`atoi`)
    if isDigit y0 ∧ isDigit y1 ∧ isDigit y2 ∧ isDigit y3 then
      let year : Nat := digitsValue [y0, y1, y2, y3]
      (skip value '-').bind fun value =>
      (getnum value true).bind fun (month, value) =>
      if hmonth : 1 ≤ month ∧ month ≤ 12 then
        (skip value '-').bind fun value =>
        (getnum value true).bind fun (day, value) =>
        (skip value '_').bind fun value =>
        (getnum value false).bind fun (hour, value) =>
        if hhour : hour < 24 then
          (getnum value true).bind fun (min, value) =>
          if hmin : min < 60 then
            (getnum value true).bind fun (sec, value) =>
            if hsec : sec < 60 then
              match fraction value with
              | (nsec, value) =>
                if value ≠ [] then none -- extra text
                else if hday : 1 ≤ day ∧ day ≤ daysIn month year then
                  -- at most nine digits are read, so this test never fails
                  if hnsec : nsec < 1000000000 then
                    some ⟨year, month, day, hour, min, sec, nsec,
                      hmonth, hday, hhour, hmin, hsec, hnsec⟩
                  else none
                else none
            else none
          else none
        else none
      else none
    else none
  | _ => none

/-- The second-level representation of a time: `t.Truncate(time.Second)`, the same
calendar reading with the sub-second part dropped. -/
def Time.truncateSecond (t : Time) : Time :=
  { t with nsec := 0, nsec_ok := by decide }

/-! ## `main.go`: `ParseArgs` -/

/-- The source's `CommandType`: `iota` numbers the constants 0, 1, 2. -/
inductive CommandType where
  | CommandTypeCreate
  | CommandTypeConfig
  | CommandTypeHelp
  deriving DecidableEq, Repr

/-- The source's `Command`.  The field `Type` is written `type`, `Type` being
reserved. -/
structure Command where
  type : CommandType
  Title : String
  deriving DecidableEq, Repr

/-- The zero value `Command{}`: `Type` 0 and the empty `Title`. -/
def Command.zero : Command := ⟨CommandType.CommandTypeCreate, ""⟩

/-- What a call of a Go function with results `(α, error)` does: it returns a value
and an error (`none` for `nil`, otherwise the error's message), or it panics. -/
inductive Outcome (α : Type) where
  | returned (value : α) (err : Option String)
  | panicked (msg : String)
  deriving DecidableEq, Repr

/-- The source's `ParseArgs`.  `args[1][0]` indexes the first byte of `args[1]`, a
run-time panic on the empty string; that byte is `'-'` exactly when the first
character is. -/
def ParseArgs (args : List String) : Outcome Command :=
  match args with
  | [_] => .returned ⟨.CommandTypeCreate, ""⟩ none
  | [_, a] =>
    if a = "--config" then .returned ⟨.CommandTypeConfig, ""⟩ none
    else if a = "--help" ∨ a = "-h" then .returned ⟨.CommandTypeHelp, ""⟩ none
    else
      -- Check if it's an unknown flag
      match a.data with
      | [] => .panicked "runtime error: index out of range [0] with length 0"
      | c :: _ =>
        if c = '-' then .returned Command.zero (some ("unknown flag: " ++ a))
        else .returned ⟨.CommandTypeCreate, a⟩ none
  | _ :: _ :: _ :: _ => .returned Command.zero (some "too many arguments")
  | [] => .returned Command.zero (some "unknown command")

/-! ## Paths: `path/filepath` on Unix -/

/-- The elements of a path: the texts between its slashes. -/
def splitPath : List Char → List (List Char)
  | [] => [[]]
  | c :: rest =>
    if c = '/' then [] :: splitPath rest
    else
      match splitPath rest with
      | [] => [[c]]
      | e :: es => (c :: e) :: es

/-- One element in the loop of Go's `filepath.Clean`; `out` holds the elements kept
so far, the last one first.  An empty element and `.` are dropped; `..` removes the
element before it, is kept in front of a path that is not rooted, and is dropped at
the root; any other element is kept. -/
def cleanStep (rooted : Bool) (out : List (List Char)) (e : List Char) : List (List Char) :=
  if e = [] then out
  else if e = ['.'] then out
  else if e = ['.', '.'] then
    match out with
    | top :: below => if top = ['.', '.'] then e :: out else below
    | [] => if rooted then [] else [e]
  else e :: out

/-- Go's `filepath.Clean(path)`: the shortest path name equivalent to `path` by purely
lexical processing; the empty path becomes `.`. -/
def Clean (path : String) : String :=
  if path = "" then "."
  else
    let rooted : Bool := path.data.head? = some '/'
    let out := (splitPath path.data).foldl (cleanStep rooted) []
    let body := List.intercalate ['/'] out.reverse
    if rooted then ⟨'/' :: body⟩
    else if out = [] then "."
    else ⟨body⟩

/-- Go's `filepath.Join(a, b)`: the elements from the first non-empty one on, joined
with slashes and cleaned; the empty string when both are empty. -/
def Join (a b : String) : String :=
  if a ≠ "" then Clean (a ++ "/" ++ b)
  else if b ≠ "" then Clean b
  else ""

/-- Go's `strings.HasPrefix(s, prefix)`. -/
def HasPrefix (s pre : String) : Bool := pre.data.isPrefixOf s.data

/-! ## `config/config.go`: `ExpandPath` -/

/-- The source's `ExpandPath`.  The result of `os.UserHomeDir()` is the argument
`home`, `none` when it returns an error.  The slice `path[2:]` panics when the string
is shorter than two bytes; the two bytes skipped are the characters `~/`. -/
def ExpandPath (home : Option String) (path : String) : Outcome String :=
  if HasPrefix path "~/" then
    match home with
    | none => .returned path none -- Return original if can't get home dir
    | some homeDir =>
      if 2 ≤ len path then .returned (Join homeDir ⟨path.data.drop 2⟩) none
      else .panicked "runtime error: slice bounds out of range [2:]"
  else .returned path none

/-! ## The filesystem -/

/-- The error numbers that name resolution and opening a file give in the model. -/
inductive Errno where
  | ENOENT
  | ENOTDIR
  | EISDIR
  deriving DecidableEq, Repr

/-- The text of an error number (`syscall.Errno.Error`). -/
def Errno.Error : Errno → String
  | .ENOENT => "no such file or directory"
  | .ENOTDIR => "not a directory"
  | .EISDIR => "is a directory"

/-- Go's `os.IsNotExist(err)` on the error of a failed system call. -/
def IsNotExist (e : Errno) : Bool := e = Errno.ENOENT

/-- The text of `*fs.PathError`: operation, path and error. -/
def PathError (op path : String) (e : Errno) : String :=
  op ++ " " ++ path ++ ": " ++ e.Error

/-- A filesystem without symbolic links and without permissions: a working
directory, the directories and the regular files with their contents, each named by
the elements of its absolute path.  The root, of no elements, is always a
directory. -/
structure FileSystem where
  cwd : List String
  dirs : List (List String)
  files : List (List String × String)
  deriving DecidableEq, Repr

/-- Whether a directory is found at the absolute name `k`. -/
def FileSystem.isDir (fs : FileSystem) (k : List String) : Bool :=
  decide (k = [] ∨ k ∈ fs.dirs)

/-- Whether a regular file is found at the absolute name `k`. -/
def FileSystem.isFile (fs : FileSystem) (k : List String) : Bool :=
  !fs.isDir k && (fs.files.lookup k).isSome

/-- One step of name resolution from the directory `cur`: `.` stays, `..` goes to the
parent (the root is its own parent), a name goes down. -/
def stepName (cur : List String) (e : String) : List String :=
  if e = "." then cur
  else if e = ".." then cur.dropLast
  else cur ++ [e]

/-- Name resolution, element by element: every element is looked up in a directory,
so the place reached so far must be one (`ENOTDIR` when it is a regular file,
`ENOENT` when nothing is there).  The place named by the last element need not
exist. -/
def walk (fs : FileSystem) : List String → List String → Except Errno (List String)
  | cur, [] => .ok cur
  | cur, e :: rest =>
    if fs.isDir cur then walk fs (stepName cur e) rest
    else if fs.isFile cur then .error Errno.ENOTDIR
    else .error Errno.ENOENT

/-- The place a path names: resolution starts at the root for a rooted path and at
the working directory otherwise; empty elements (repeated or trailing slashes) do not
count.  The empty path names nothing. -/
def resolve (fs : FileSystem) (path : String) : Except Errno (List String) :=
  if path = "" then .error Errno.ENOENT
  else
    let start := if path.data.head? = some '/' then [] else fs.cwd
    walk fs start (((splitPath path.data).filter (fun e => e ≠ [])).map String.mk)

/-- What `os.Stat` reports of an existing place. -/
inductive FileInfo where
  | directory
  | regular
  deriving DecidableEq, Repr

/-- Go's `os.Stat(name)`. -/
def Stat (fs : FileSystem) (name : String) : Except Errno FileInfo :=
  match resolve fs name with
  | .error e => .error e
  | .ok k =>
    if fs.isDir k then .ok FileInfo.directory
    else if fs.isFile k then
      if name.data.getLast? = some '/' then .error Errno.ENOTDIR else .ok FileInfo.regular
    else .error Errno.ENOENT

/-- Go's `os.WriteFile(name, data, 0644)`: open with `O_WRONLY|O_CREATE|O_TRUNC` and
write.  A directory cannot be opened for writing; otherwise the file is created in
its directory, or truncated when it is there, and holds `data`. -/
def WriteFile (fs : FileSystem) (name : String) (data : String) : Except Errno FileSystem :=
  match resolve fs name with
  | .error e => .error e
  | .ok k =>
    if fs.isDir k then .error Errno.EISDIR
    else if name.data.getLast? = some '/' then
      .error (if fs.isFile k then Errno.ENOTDIR else Errno.EISDIR)
    else .ok { fs with files := (k, data) :: fs.files.filter (fun f => f.1 ≠ k) }

/-- Go's `os.ReadFile(name)`. -/
def ReadFile (fs : FileSystem) (name : String) : Except Errno String :=
  match resolve fs name with
  | .error e => .error e
  | .ok k =>
    if fs.isDir k then .error Errno.EISDIR
    else
      match fs.files.lookup k with
      | some data => if name.data.getLast? = some '/' then .error Errno.ENOTDIR else .ok data
      | none => .error Errno.ENOENT

/-- Go's `os.Remove(name)` on a regular file. -/
def Remove (fs : FileSystem) (name : String) : Except Errno FileSystem :=
  match resolve fs name with
  | .error e => .error e
  | .ok k =>
    if fs.isFile k then .ok { fs with files := fs.files.filter (fun f => f.1 ≠ k) }
    else if fs.isDir k then .error Errno.EISDIR
    else .error Errno.ENOENT

/-! ## `main.go`: `CreateScratchNote` -/

/-- The values of Go's `error` that `CreateScratchNote` meets: the result of
`fmt.Errorf` without `%w`, known by its text, and the source's `*EditorError`. -/
inductive GoError where
  | errorString (msg : String)
  | EditorError (Editor : String) (Err : String)
  deriving DecidableEq, Repr

/-- The method `Error()`; for `*EditorError` the source's
`fmt.Sprintf("Editor '%s' not found: %s", e.Editor, e.Err)`. -/
def GoError.Error : GoError → String
  | .errorString msg => msg
  | .EditorError editor err => "Editor '" ++ editor ++ "' not found: " ++ err

/-- The source's `EditorLauncher` interface, for a value that is not nil: `Launch`
is given the path and the filesystem, may change the filesystem, and returns an error
or `nil`. -/
structure EditorLauncher where
  Launch : String → FileSystem → FileSystem × Option GoError

/-- The state a call runs in: the filesystem, and the record of the editor launches
so far, each with its path and the filesystem at the moment of the launch. -/
structure World where
  fs : FileSystem
  launched : List (String × FileSystem)
  deriving DecidableEq, Repr

/-- The call `editor.Launch(filePath)`: it is recorded, and the editor acts on the
filesystem. -/
def launch (editor : EditorLauncher) (filePath : String) (w : World) :
    World × Option GoError :=
  let r := editor.Launch filePath w.fs
  ({ fs := r.1, launched := w.launched ++ [(filePath, w.fs)] }, r.2)

/-- The source's `CreateScratchNote`: the path and error returned, and the state
left. -/
def CreateScratchNote (title directory : String) (t : Time) (editor : EditorLauncher)
    (w : World) : (String × Option GoError) × World :=
  -- Check if directory exists
  let notExist : Bool :=
    match Stat w.fs directory with
    | .error err => IsNotExist err
    | .ok _ => false
  if notExist then
    (("", some (.errorString ("scratch-note directory does not exist: " ++ directory))), w)
  else
    -- Generate filename
    let filename := GenerateFileName title t
    let filePath := Join directory filename
    -- Create empty file
    match WriteFile w.fs filePath "" with
    | .error e =>
      (("", some (.errorString ("failed to create file: " ++ PathError "open" filePath e))), w)
    | .ok fs =>
      -- Launch editor
      match launch editor filePath { w with fs := fs } with
      | (w, some err) => (("", some err), w)
      | (w, none) => ((filePath, none), w)

/-- The `MockEditor` of `main_test.go`: it leaves the filesystem alone and fails when
`ShouldFail` is set; its field `CalledWith` is the record of launches of the state. -/
def MockEditor (ShouldFail : Bool) : EditorLauncher where
  Launch := fun _ fs =>
    (fs, if ShouldFail then some (.EditorError "mock-editor" "command not found") else none)

/-- An editor that removes the file it is given and then reports a failure. -/
def removingEditor : EditorLauncher where
  Launch := fun filePath fs =>
    (match Remove fs filePath with
      | .ok fs => fs
      | .error _ => fs,
     some (.EditorError "remover" "exit status 1"))

/-- A state of the tests: the working directory `/home/user` holds the directory
`notes` and the regular file `plain`; no editor has been launched. -/
def testWorld : World where
  fs := {
    cwd := ["home", "user"]
    dirs := [["home"], ["home", "user"], ["home", "user", "notes"]]
    files := [(["home", "user", "plain"], "text")] }
  launched := []

/-- The state `testWorld` in which `notes` already holds a file of the name the note
of 2025-08-16 14:30:45 will get, with content. -/
def takenWorld : World where
  fs := { testWorld.fs with
    files := [(["home", "user", "plain"], "text"),
      (["home", "user", "notes", "2025-08-16_143045.md"], "old text")] }
  launched := []

/-- The filesystem of `testWorld` once the empty untitled note of 2025-08-16 14:30:45
is written into `notes`. -/
def notedFs : FileSystem :=
  { testWorld.fs with
    files := [(["home", "user", "notes", "2025-08-16_143045.md"], ""),
      (["home", "user", "plain"], "text")] }

/-! ## The reference definition of the specification -/

/-- Specification: "replacing each space with a hyphen". -/
def spacesToHyphens (s : List Char) : List Char :=
  s.map fun c => if c = ' ' then '-' else c

/-- Specification: "replacing each of `/ \ : * ? " < > |` with a hyphen". -/
def specialsToHyphens (s : List Char) : List Char :=
  s.map fun c => if c ∈ specialChars then '-' else c

/-- Specification: "collapsing every run of two or more hyphens into a single
hyphen": a hyphen that another hyphen follows is dropped, which leaves one hyphen,
the last, of every run. -/
def collapseHyphens : List Char → List Char
  | c :: d :: rest =>
    if c = '-' ∧ d = '-' then collapseHyphens (d :: rest)
    else c :: collapseHyphens (d :: rest)
  | s => s

/-- Specification: "stripping leading and trailing hyphens". -/
def stripHyphens (s : List Char) : List Char :=
  (s.dropWhile (fun c => c == '-')).rdropWhile (fun c => c == '-')

/-- Specification: the sanitized title, the four steps in the order given. -/
def sanitizeSpec (title : List Char) : List Char :=
  stripHyphens (collapseHyphens (specialsToHyphens (spacesToHyphens title)))

/-- Specification: a field "zero-padded" to its width: the decimal numeral of `n`
with zeros in front up to `width` digits. -/
def zeroPadded (width n : Nat) : List Char :=
  let ds := Nat.toDigits 10 n
  List.replicate (width - ds.length) '0' ++ ds

/-- Specification: the timestamp "formatted as zero-padded `YYYY-MM-DD_HHMMSS`
(24-hour)".  The specification is silent on years before 0; the reference writes
them the ISO 8601 way, a minus sign before the padded digits. -/
def timestampSpec (t : Time) : List Char :=
  (if t.year < 0 then ['-'] else []) ++ zeroPadded 4 t.year.natAbs ++ ['-']
    ++ zeroPadded 2 t.month ++ ['-'] ++ zeroPadded 2 t.day ++ ['_']
    ++ zeroPadded 2 t.hour ++ zeroPadded 2 t.minute ++ zeroPadded 2 t.second

/-- Specification: the reference definition of the generated file name. -/
def GenerateFileNameSpec (title : String) (t : Time) : String :=
  let ts : String := ⟨timestampSpec t⟩
  if title = "" then ts ++ ".md"
  else ts ++ "_" ++ ⟨sanitizeSpec title.data⟩ ++ ".md"

/-- The characters the sanitizer turns into hyphens or strips: the space, the hyphen
and the nine special characters. -/
def isSeparator (c : Char) : Prop := c = ' ' ∨ c = '-' ∨ c ∈ specialChars

instance (c : Char) : Decidable (isSeparator c) := by unfold isSeparator; infer_instance

/-! ## Lemmas on the string primitives -/

theorem replaceAll_space (s : List Char) : ReplaceAll s [' '] ['-'] = spacesToHyphens s := by
  unfold ReplaceAll spacesToHyphens
  induction s with
  | nil => rfl
  | cons c rest ih =>
    by_cases h : c = ' '
    · subst h
      simp [replaceMatches, matchLiteral, ih]
    · have h' : (' ' == c) = false := by simpa using fun e => h e.symm
      simp [replaceMatches, matchLiteral, List.isPrefixOf, h, h', ih]

theorem replaceAllString_special (s : List Char) :
    ReplaceAllString matchSpecial s ['-'] = specialsToHyphens s := by
  unfold ReplaceAllString specialsToHyphens
  induction s with
  | nil => rfl
  | cons c rest ih =>
    by_cases h : c ∈ specialChars
    · simp [replaceMatches, matchSpecial, h, ih]
    · simp [replaceMatches, matchSpecial, h, ih]

theorem replaceMatches_hyphens_skip (rest : List Char) :
    replaceMatches matchHyphens ['-'] (matchHyphens rest) rest
      = replaceMatches matchHyphens ['-'] 0 (rest.dropWhile (fun c => c == '-')) := by
  induction rest with
  | nil => rfl
  | cons d r ih =>
    by_cases h : d = '-'
    · subst h
      simpa [matchHyphens, replaceMatches] using ih
    · simp [matchHyphens, h]

theorem collapseHyphens_hyphen_cons (rest : List Char) :
    collapseHyphens ('-' :: rest)
      = '-' :: collapseHyphens (rest.dropWhile (fun c => c == '-')) := by
  induction rest with
  | nil => rfl
  | cons d r ih =>
    by_cases h : d = '-'
    · subst h
      simpa [collapseHyphens] using ih
    · simp [collapseHyphens, h]

theorem collapseHyphens_cons_of_ne (c : Char) (rest : List Char) (h : c ≠ '-') :
    collapseHyphens (c :: rest) = c :: collapseHyphens rest := by
  cases rest with
  | nil => rfl
  | cons d r => simp [collapseHyphens, h]

theorem replaceAllString_hyphens (s : List Char) :
    ReplaceAllString matchHyphens s ['-'] = collapseHyphens s := by
  unfold ReplaceAllString
  generalize hn : s.length = n
  induction n using Nat.strong_induction_on generalizing s with
  | _ n ih =>
    cases s with
    | nil => rfl
    | cons c rest =>
      by_cases h : c = '-'
      · subst h
        have hm : matchHyphens ('-' :: rest) = matchHyphens rest + 1 := by
          simp [matchHyphens]
        have hlt : (rest.dropWhile (fun c => c == '-')).length < n := by
          have := (List.dropWhile_sublist (l := rest) (fun c => c == '-')).length_le
          simp at hn; omega
        rw [collapseHyphens_hyphen_cons, ← ih _ hlt _ rfl, ← replaceMatches_hyphens_skip]
        simp [replaceMatches, hm]
      · have hm : matchHyphens (c :: rest) = 0 := by simp [matchHyphens, h]
        have hlt : rest.length < n := by simp at hn; omega
        rw [collapseHyphens_cons_of_ne c rest h, ← ih _ hlt _ rfl]
        simp [replaceMatches, hm]

theorem dropWhile_rdropWhile_comm (p : Char → Bool) (s : List Char) :
    (s.rdropWhile p).dropWhile p = (s.dropWhile p).rdropWhile p := by
  induction s using List.reverseRecOn with
  | nil => simp
  | append_singleton l x ih =>
    by_cases hx : p x = true
    · rw [List.rdropWhile_concat_pos _ _ _ hx, ih, List.dropWhile_append]
      by_cases hl : (l.dropWhile p).isEmpty = true
      · have hnil : l.dropWhile p = [] := by simpa using hl
        simp [hnil, hx]
      · simp only [hl, if_false, Bool.false_eq_true]
        rw [List.rdropWhile_concat_pos _ _ _ hx]
    · rw [List.rdropWhile_concat_neg _ _ _ hx, List.dropWhile_append]
      by_cases hl : (l.dropWhile p).isEmpty = true
      · have hx' : p x = false := by simpa using hx
        simp only [hl, if_true, List.dropWhile_cons, hx', List.dropWhile_nil]
        simpa using (List.rdropWhile_concat_neg p [] x hx).symm
      · simp only [hl, if_false, Bool.false_eq_true]
        rw [List.rdropWhile_concat_neg _ _ _ hx]

theorem trim_eq_stripHyphens (s : List Char) : Trim s '-' = stripHyphens s :=
  dropWhile_rdropWhile_comm _ s

/-- The source's sanitizer computes the reference sanitizer. -/
theorem cleanTitleChars_eq_sanitizeSpec (title : List Char) :
    cleanTitleChars title = sanitizeSpec title := by
  unfold cleanTitleChars sanitizeSpec
  simp only [replaceAll_space, replaceAllString_special, replaceAllString_hyphens,
    trim_eq_stripHyphens]

theorem stripHyphens_within (s : List Char) : stripHyphens s <:+: s := by
  have h1 : stripHyphens s <:+: s.dropWhile (fun c => c == '-') :=
    List.IsPrefix.isInfix <| List.rdropWhile_prefix _ _
  have h2 : s.dropWhile (fun c => c == '-') <:+: s :=
    List.IsSuffix.isInfix <| List.dropWhile_suffix _
  exact List.IsInfix.trans h1 h2

theorem collapseHyphens_sublist (s : List Char) : (collapseHyphens s).Sublist s := by
  generalize hn : s.length = n
  induction n generalizing s with
  | zero =>
    have : s = [] := List.length_eq_zero.mp hn
    subst this; simp [collapseHyphens]
  | succ n ih =>
    match s, hn with
    | [c], _ => simp [collapseHyphens]
    | c :: d :: rest, hn =>
      have hlen : (d :: rest).length = n := by simpa using hn
      have := ih (d :: rest) hlen
      unfold collapseHyphens
      split_ifs
      · exact this.trans (List.sublist_cons_self _ _)
      · exact this.cons₂ _

theorem collapseHyphens_mem_iff (x : Char) (s : List Char) :
    x ∈ collapseHyphens s ↔ x ∈ s := by
  refine ⟨fun h => (collapseHyphens_sublist s).subset h, ?_⟩
  generalize hn : s.length = n
  induction n generalizing s with
  | zero =>
    have : s = [] := List.length_eq_zero.mp hn
    subst this; simp
  | succ n ih =>
    match s, hn with
    | [c], _ => simp [collapseHyphens]
    | c :: d :: rest, hn =>
      have hlen : (d :: rest).length = n := by simpa using hn
      have := ih (d :: rest) hlen
      intro hx
      unfold collapseHyphens
      split_ifs with hcd
      · rcases List.mem_cons.mp hx with rfl | hx
        · exact this (by simp [hcd.1, hcd.2])
        · exact this hx
      · rcases List.mem_cons.mp hx with rfl | hx
        · exact List.mem_cons_self _ _
        · exact List.mem_cons_of_mem _ (this hx)

theorem collapseHyphens_chain (s : List Char) :
    (collapseHyphens s).Chain' (fun a b => ¬(a = '-' ∧ b = '-')) := by
  generalize hn : s.length = n
  induction n generalizing s with
  | zero =>
    have : s = [] := List.length_eq_zero.mp hn
    subst this; simp [collapseHyphens]
  | succ n ih =>
    match s, hn with
    | [c], _ => simp [collapseHyphens]
    | c :: d :: rest, hn =>
      have hlen : (d :: rest).length = n := by simpa using hn
      have hch := ih (d :: rest) hlen
      unfold collapseHyphens
      split_ifs with hcd
      · exact hch
      · refine List.chain'_cons'.mpr ⟨?_, hch⟩
        intro y hy
        by_cases hd : d = '-'
        · subst hd
          rw [collapseHyphens_hyphen_cons] at hy
          simp only [List.head?_cons, Option.mem_def, Option.some.injEq] at hy
          subst hy
          exact fun h => hcd ⟨h.1, rfl⟩
        · rw [collapseHyphens_cons_of_ne d rest hd] at hy
          simp only [List.head?_cons, Option.mem_def, Option.some.injEq] at hy
          subst hy
          exact fun h => hd h.2

/-- The sanitizer's output has no two hyphens in a row. -/
theorem sanitizeSpec_no_double (s : List Char) : ¬ (['-', '-'] <:+: sanitizeSpec s) := by
  intro h
  have hinf : ['-', '-'] <:+: collapseHyphens (specialsToHyphens (spacesToHyphens s)) :=
    List.IsInfix.trans h (stripHyphens_within _)
  have := List.Chain'.infix (collapseHyphens_chain _) hinf
  simp at this

/-- The sanitizer's output has no space and no special character. -/
theorem sanitizeSpec_clean (s : List Char) (c : Char) (hc : c ∈ sanitizeSpec s) :
    c ≠ ' ' ∧ c ∉ specialChars := by
  have h1 : c ∈ collapseHyphens (specialsToHyphens (spacesToHyphens s)) :=
    (stripHyphens_within _).subset hc
  rw [collapseHyphens_mem_iff] at h1
  simp only [specialsToHyphens, spacesToHyphens, List.map_map, List.mem_map,
    Function.comp] at h1
  obtain ⟨a, -, rfl⟩ := h1
  by_cases ha : a = ' '
  · subst ha; decide
  · rw [if_neg ha]
    by_cases hs : a ∈ specialChars
    · rw [if_pos hs]; decide
    · rw [if_neg hs]; exact ⟨ha, hs⟩

theorem stripHyphens_head (s : List Char) : (stripHyphens s).head? ≠ some '-' := by
  rw [← trim_eq_stripHyphens]
  unfold Trim
  intro h
  have := List.head?_dropWhile_not (fun x => x == '-') (s.rdropWhile (fun x => x == '-'))
  rw [h] at this
  simp at this

theorem stripHyphens_getLast (s : List Char) : (stripHyphens s).getLast? ≠ some '-' := by
  unfold stripHyphens
  intro h
  have hne : (s.dropWhile (fun c => c == '-')).rdropWhile (fun c => c == '-') ≠ [] := by
    intro hnil; rw [hnil] at h; simp at h
  have := List.rdropWhile_last_not (fun c => c == '-') _ hne
  rw [List.getLast?_eq_getLast _ hne] at h
  simp only [Option.some.injEq] at h
  rw [h] at this
  simp at this

theorem stripHyphens_eq_nil_iff (s : List Char) : stripHyphens s = [] ↔ ∀ c ∈ s, c = '-' := by
  unfold stripHyphens
  rw [List.rdropWhile_eq_nil_iff]
  constructor
  · intro h c hc
    by_contra hne
    have hmem : c ∈ s.dropWhile (fun c => c == '-') := by
      induction s with
      | nil => simp at hc
      | cons a r ih =>
        by_cases ha : a = '-'
        · subst ha
          rcases List.mem_cons.mp hc with rfl | hr
          · exact absurd rfl hne
          · simp only [List.dropWhile_cons, beq_self_eq_true, if_true] at h ⊢
            exact ih h hr
        · have : (a == '-') = false := by simpa using ha
          simp only [List.dropWhile_cons, this] at h ⊢
          simpa using hc
    simpa using (h c hmem) |> fun e => hne (by simpa using e)
  · intro h c hc
    have := h c ((List.dropWhile_sublist _).subset hc)
    simpa using this

/-! ## Lemmas on decimal numerals -/

theorem digit_eq_digitChar (d : Nat) (h : d < 10) : digit d = Nat.digitChar d := by
  interval_cases d <;> rfl

theorem digitVal_digit (d : Nat) (h : d < 10) : digitVal (digit d) = d := by
  interval_cases d <;> rfl

theorem isDigit_digit (d : Nat) (h : d < 10) : isDigit (digit d) = true := by
  interval_cases d <;> rfl

theorem utf8Size_digit (d : Nat) (h : d < 10) : (digit d).utf8Size = 1 := by
  interval_cases d <;> rfl

theorem digit_ne_hyphen (d : Nat) (h : d < 10) : digit d ≠ '-' := by
  interval_cases d <;> decide

theorem digit_ne_underscore (d : Nat) (h : d < 10) : digit d ≠ '_' := by
  interval_cases d <;> decide

theorem assembleDigits_fuel (u : Nat) : ∀ (f : Nat) (acc : List Char), u ≤ f →
    assembleDigits f u acc = assembleDigits u u acc := by
  induction u using Nat.strong_induction_on with
  | _ u ih =>
    intro f acc hf
    by_cases hu : u ≥ 10
    · obtain ⟨f', rfl⟩ : ∃ f', f = f' + 1 := ⟨f - 1, by omega⟩
      obtain ⟨u', rfl⟩ : ∃ u', u = u' + 1 := ⟨u - 1, by omega⟩
      simp only [assembleDigits, hu, if_true]
      rw [ih ((u' + 1) / 10) (by omega) f' _ (by omega),
        ih ((u' + 1) / 10) (by omega) u' _ (by omega)]
    · cases f <;> cases u <;> simp [assembleDigits, hu]

theorem assembleDigits_acc (f : Nat) : ∀ (u : Nat) (acc : List Char),
    assembleDigits f u acc = assembleDigits f u [] ++ acc := by
  induction f with
  | zero => intro u acc; simp [assembleDigits]
  | succ f ih =>
    intro u acc
    by_cases hu : u ≥ 10
    · simp only [assembleDigits, hu, if_true]
      rw [ih _ (digit (u % 10) :: acc), ih _ [digit (u % 10)]]
      simp
    · simp [assembleDigits, hu]

theorem assembleDigits_small (u : Nat) (h : u < 10) : assembleDigits u u [] = [digit u] := by
  cases u <;> simp [assembleDigits]
  omega

theorem assembleDigits_step (u : Nat) (h : 10 ≤ u) :
    assembleDigits u u [] = assembleDigits (u / 10) (u / 10) [] ++ [digit (u % 10)] := by
  obtain ⟨u', rfl⟩ : ∃ u', u = u' + 1 := ⟨u - 1, by omega⟩
  have hge : u' + 1 ≥ 10 := h
  simp only [assembleDigits, hge, if_true]
  rw [assembleDigits_fuel _ u' _ (by omega), assembleDigits_acc]

theorem countDigits_fuel (u : Nat) : ∀ f : Nat, u ≤ f → countDigits f u = countDigits u u := by
  induction u using Nat.strong_induction_on with
  | _ u ih =>
    intro f hf
    by_cases hu : u > 0
    · obtain ⟨f', rfl⟩ : ∃ f', f = f' + 1 := ⟨f - 1, by omega⟩
      obtain ⟨u', rfl⟩ : ∃ u', u = u' + 1 := ⟨u - 1, by omega⟩
      simp only [countDigits, hu, if_true]
      rw [ih ((u' + 1) / 10) (by omega) f' (by omega),
        ih ((u' + 1) / 10) (by omega) u' (by omega)]
    · have : u = 0 := by omega
      subst this
      cases f <;> simp [countDigits]

theorem countDigits_step (u : Nat) (h : 0 < u) :
    countDigits u u = countDigits (u / 10) (u / 10) + 1 := by
  obtain ⟨u', rfl⟩ : ∃ u', u = u' + 1 := ⟨u - 1, by omega⟩
  have hpos : u' + 1 > 0 := h
  simp only [countDigits, hpos, if_true]
  rw [countDigits_fuel _ u' (by omega)]

/-- The counting loop of `appendInt` counts the digits the writing loop writes. -/
theorem assembleDigits_length (u : Nat) (h : 0 < u) :
    (assembleDigits u u []).length = countDigits u u := by
  induction u using Nat.strong_induction_on with
  | _ u ih =>
    by_cases hu : u < 10
    · rw [assembleDigits_small u hu, countDigits_step u h]
      have : u / 10 = 0 := by omega
      simp [this, countDigits]
    · rw [assembleDigits_step u (by omega), countDigits_step u h, List.length_append,
        ih (u / 10) (by omega) (by omega)]
      simp

theorem digitsValue_concat (l : List Char) (c : Char) :
    digitsValue (l ++ [c]) = digitsValue l * 10 + digitVal c := by
  simp [digitsValue, List.foldl_append]

/-- Reading the numeral written for `u` gives `u` back. -/
theorem digitsValue_assembleDigits (u : Nat) : digitsValue (assembleDigits u u []) = u := by
  induction u using Nat.strong_induction_on with
  | _ u ih =>
    by_cases hu : u < 10
    · rw [assembleDigits_small u hu]
      simp [digitsValue, digitVal_digit u hu]
    · rw [assembleDigits_step u (by omega), digitsValue_concat, ih (u / 10) (by omega),
        digitVal_digit _ (Nat.mod_lt _ (by decide))]
      omega

theorem assembleDigits_isDigit (u : Nat) :
    ∀ c ∈ assembleDigits u u [], ∃ d, d < 10 ∧ c = digit d := by
  induction u using Nat.strong_induction_on with
  | _ u ih =>
    intro c hc
    by_cases hu : u < 10
    · rw [assembleDigits_small u hu] at hc
      exact ⟨u, hu, by simpa using hc⟩
    · rw [assembleDigits_step u (by omega)] at hc
      rcases List.mem_append.mp hc with hc | hc
      · exact ih (u / 10) (by omega) c hc
      · exact ⟨u % 10, Nat.mod_lt _ (by decide), by simpa using hc⟩

theorem assembleDigits_eq_toDigitsCore (f : Nat) : ∀ (u : Nat) (acc : List Char), u ≤ f →
    assembleDigits f u acc = Nat.toDigitsCore 10 (f + 1) u acc := by
  induction f with
  | zero =>
    intro u acc hu
    have : u = 0 := by omega
    subst this
    simp [assembleDigits, Nat.toDigitsCore]
    rfl
  | succ f ih =>
    intro u acc hu
    by_cases h10 : u ≥ 10
    · have hne : ¬ u / 10 = 0 := by omega
      rw [Nat.toDigitsCore]
      simp only [assembleDigits, h10, if_true, hne, if_false]
      rw [ih _ _ (by omega), digit_eq_digitChar _ (Nat.mod_lt _ (by decide))]
    · have hz : u / 10 = 0 := by omega
      have hm : u % 10 = u := by omega
      rw [Nat.toDigitsCore]
      simp only [assembleDigits, h10, if_false, hz, if_true, hm]
      rw [digit_eq_digitChar _ (by omega)]

/-- The writing loop of `appendInt` writes the decimal numeral. -/
theorem assembleDigits_eq_toDigits (u : Nat) : assembleDigits u u [] = Nat.toDigits 10 u :=
  assembleDigits_eq_toDigitsCore u u [] (le_refl u)

theorem assembleDigits_two (u : Nat) (h1 : 10 ≤ u) (h2 : u < 100) :
    assembleDigits u u [] = [digit (u / 10), digit (u % 10)] := by
  rw [assembleDigits_step u h1, assembleDigits_small (u / 10) (by omega)]
  rfl

theorem assembleDigits_three (u : Nat) (h1 : 100 ≤ u) (h2 : u < 1000) :
    assembleDigits u u [] = [digit (u / 10 / 10), digit (u / 10 % 10), digit (u % 10)] := by
  rw [assembleDigits_step u (by omega), assembleDigits_two (u / 10) (by omega) (by omega)]
  rfl

theorem assembleDigits_four (u : Nat) (h1 : 1000 ≤ u) (h2 : u < 10000) :
    assembleDigits u u []
      = [digit (u / 10 / 10 / 10), digit (u / 10 / 10 % 10), digit (u / 10 % 10), digit (u % 10)] := by
  rw [assembleDigits_step u (by omega), assembleDigits_three (u / 10) (by omega) (by omega)]
  rfl

theorem zeroPadded_two (u : Nat) (h : u < 100) :
    zeroPadded 2 u = [digit (u / 10), digit (u % 10)] := by
  unfold zeroPadded
  simp only [← assembleDigits_eq_toDigits]
  by_cases h1 : u < 10
  · have e1 : u / 10 = 0 := by omega
    have e2 : u % 10 = u := by omega
    rw [assembleDigits_small u h1, e1, e2]
    rfl
  · rw [assembleDigits_two u (by omega) h]
    rfl

theorem zeroPadded_four (u : Nat) (h : u < 10000) :
    zeroPadded 4 u
      = [digit (u / 1000), digit (u / 100 % 10), digit (u / 10 % 10), digit (u % 10)] := by
  unfold zeroPadded
  simp only [← assembleDigits_eq_toDigits]
  have a1 : u / 1000 = u / 10 / 10 / 10 := by omega
  have a2 : u / 100 % 10 = u / 10 / 10 % 10 := by omega
  rw [a1, a2]
  by_cases h1 : u < 10
  · have e1 : u / 10 / 10 / 10 = 0 := by omega
    have e2 : u / 10 / 10 % 10 = 0 := by omega
    have e3 : u / 10 % 10 = 0 := by omega
    have e4 : u % 10 = u := by omega
    rw [assembleDigits_small u h1, e1, e2, e3, e4]
    rfl
  · by_cases h2 : u < 100
    · have e1 : u / 10 / 10 / 10 = 0 := by omega
      have e2 : u / 10 / 10 % 10 = 0 := by omega
      have e3 : u / 10 % 10 = u / 10 := by omega
      rw [assembleDigits_two u (by omega) h2, e1, e2, e3]
      rfl
    · by_cases h3 : u < 1000
      · have e1 : u / 10 / 10 / 10 = 0 := by omega
        have e2 : u / 10 / 10 % 10 = u / 10 / 10 := by omega
        rw [assembleDigits_three u (by omega) h3, e1, e2]
        rfl
      · have e1 : u / 10 / 10 / 10 % 10 = u / 10 / 10 / 10 := by omega
        rw [assembleDigits_four u (by omega) h]
        rfl

/-- Go's `appendInt` writes an optional sign and the zero-padded numeral. -/
theorem appendInt_eq_zeroPadded (x : Int) (width : Nat) :
    appendInt x width = (if x < 0 then ['-'] else []) ++ zeroPadded width x.natAbs := by
  unfold appendInt
  simp only
  split_ifs with h2 h4 h4
  all_goals first
    | rw [zeroPadded_two _ h2.2]
    | (obtain ⟨rfl, hu⟩ := h2; rw [zeroPadded_two _ hu])
    | (obtain ⟨rfl, hu⟩ := h4; rw [zeroPadded_four _ hu])
    | skip
  all_goals
    rw [List.append_assoc]
    congr 1
    unfold zeroPadded
    simp only [← assembleDigits_eq_toDigits]
    congr 2
    by_cases hz : x.natAbs = 0
    · first
        | contradiction
        | (rw [hz]; rfl)
    · first
        | contradiction
        | rw [assembleDigits_length _ (by omega)]

theorem appendInt_nat_two (n : Nat) (h : n < 100) :
    appendInt (n : Int) 2 = [digit (n / 10), digit (n % 10)] := by
  rw [appendInt_eq_zeroPadded]
  have : ¬ ((n : Int) < 0) := by omega
  simp [this, zeroPadded_two n h]

theorem appendInt_year_four (y : Int) (h0 : 0 ≤ y) (h1 : y ≤ 9999) :
    appendInt y 4 = [digit (y.natAbs / 1000), digit (y.natAbs / 100 % 10),
      digit (y.natAbs / 10 % 10), digit (y.natAbs % 10)] := by
  rw [appendInt_eq_zeroPadded]
  have : ¬ (y < 0) := by omega
  simp [this, zeroPadded_four y.natAbs (by omega)]

/-- The source's timestamp is the reference timestamp. -/
theorem formatChars_eq_timestampSpec (t : Time) : formatChars t = timestampSpec t := by
  unfold formatChars timestampSpec
  have h : ∀ n : Nat, appendInt (n : Int) 2 = zeroPadded 2 n := by
    intro n
    rw [appendInt_eq_zeroPadded]
    have : ¬ ((n : Int) < 0) := by omega
    simp [this]
  rw [appendInt_eq_zeroPadded t.year 4, h, h, h, h, h]

/-! ## Lemmas on the file name -/

theorem generateFileName_empty (t : Time) :
    (GenerateFileName "" t).data = formatChars t ++ ['.', 'm', 'd'] := rfl

theorem generateFileName_titled (title : String) (t : Time) (h : title ≠ "") :
    (GenerateFileName title t).data
      = formatChars t ++ '_' :: (cleanTitleChars title.data ++ ['.', 'm', 'd']) := by
  unfold GenerateFileName
  simp only [if_neg h]
  simp [Format, cleanTitle]

/-- For a year of at most four digits the timestamp is seventeen explicit digits and
separators. -/
theorem formatChars_four_digit_year (t : Time) (h0 : 0 ≤ t.year) (h1 : t.year ≤ 9999) :
    formatChars t =
      [digit (t.year.natAbs / 1000), digit (t.year.natAbs / 100 % 10),
        digit (t.year.natAbs / 10 % 10), digit (t.year.natAbs % 10), '-',
        digit (t.month / 10), digit (t.month % 10), '-',
        digit (t.day / 10), digit (t.day % 10), '_',
        digit (t.hour / 10), digit (t.hour % 10),
        digit (t.minute / 10), digit (t.minute % 10),
        digit (t.second / 10), digit (t.second % 10)] := by
  have hm := t.month_ok
  have hd := t.day_ok
  have hdi : daysIn t.month t.year ≤ 31 := by unfold daysIn; split_ifs <;> omega
  have hh := t.hour_ok
  have hmi := t.minute_ok
  have hs := t.second_ok
  unfold formatChars
  rw [appendInt_year_four t.year h0 h1, appendInt_nat_two _ (by omega),
    appendInt_nat_two _ (by omega), appendInt_nat_two _ (by omega),
    appendInt_nat_two _ (by omega), appendInt_nat_two _ (by omega)]
  rfl

theorem utf8Len_eq_length_of_ascii (l : List Char) (h : ∀ c ∈ l, c.utf8Size = 1) :
    String.utf8Len l = l.length := by
  induction l with
  | nil => rfl
  | cons c r ih =>
    rw [String.utf8Len_cons, ih (fun x hx => h x (List.mem_cons_of_mem _ hx)),
      h c (List.mem_cons_self _ _), List.length_cons]

theorem zeroPadded_isDigit (width u : Nat) :
    ∀ c ∈ zeroPadded width u, ∃ d, d < 10 ∧ c = digit d := by
  intro c hc
  unfold zeroPadded at hc
  simp only [← assembleDigits_eq_toDigits] at hc
  rcases List.mem_append.mp hc with hc | hc
  · exact ⟨0, by decide, (List.eq_of_mem_replicate hc).trans rfl⟩
  · exact assembleDigits_isDigit u c hc

theorem assembleDigits_length_ge (k : Nat) : ∀ u : Nat, 10 ^ k ≤ u →
    k + 1 ≤ (assembleDigits u u []).length := by
  induction k with
  | zero =>
    intro u _
    by_cases hu : u < 10
    · rw [assembleDigits_small u hu]; simp
    · rw [assembleDigits_step u (by omega)]; simp
  | succ k ih =>
    intro u hu
    have h10 : 10 ≤ u := by
      have : 10 ^ 1 ≤ 10 ^ (k + 1) := Nat.pow_le_pow_right (by decide) (by omega)
      omega
    have hdiv : 10 ^ k ≤ u / 10 := by
      rw [Nat.le_div_iff_mul_le (by decide)]
      rw [pow_succ] at hu
      exact hu
    rw [assembleDigits_step u h10, List.length_append]
    have := ih (u / 10) hdiv
    simp
    omega

theorem zeroPadded_length_ge (width u : Nat) : width ≤ (zeroPadded width u).length := by
  unfold zeroPadded
  simp only [List.length_append, List.length_replicate]
  omega

theorem zeroPadded_four_length_big (u : Nat) (h : 10000 ≤ u) :
    5 ≤ (zeroPadded 4 u).length := by
  unfold zeroPadded
  simp only [← assembleDigits_eq_toDigits, List.length_append, List.length_replicate]
  have := assembleDigits_length_ge 4 u (by simpa using h)
  omega

/-- The year field is four characters long exactly for the years 0 to 9999, and
longer for every other year. -/
theorem appendInt_year_length (y : Int) :
    4 ≤ (appendInt y 4).length ∧ ((appendInt y 4).length = 4 ↔ 0 ≤ y ∧ y ≤ 9999) := by
  by_cases h0 : 0 ≤ y
  · by_cases h1 : y ≤ 9999
    · rw [appendInt_year_four y h0 h1]
      simp [h0, h1]
    · have hlen : 5 ≤ (appendInt y 4).length := by
        rw [appendInt_eq_zeroPadded]
        have := zeroPadded_four_length_big y.natAbs (by omega)
        simp only [List.length_append]
        omega
      exact ⟨by omega, ⟨fun h => by omega, fun h => absurd h.2 h1⟩⟩
  · have hneg : y < 0 := by omega
    have hlen : 5 ≤ (appendInt y 4).length := by
      rw [appendInt_eq_zeroPadded, if_pos hneg]
      have := zeroPadded_length_ge 4 y.natAbs
      simp only [List.length_append, List.length_singleton]
      omega
    exact ⟨by omega, ⟨fun h => by omega, fun h => absurd h.1 h0⟩⟩

theorem appendInt_ascii (x : Int) (width : Nat) : ∀ c ∈ appendInt x width, c.utf8Size = 1 := by
  intro c hc
  rw [appendInt_eq_zeroPadded] at hc
  rcases List.mem_append.mp hc with hc | hc
  · split_ifs at hc
    · have : c = '-' := by simpa using hc
      subst this; rfl
    · simp at hc
  · obtain ⟨d, hd, rfl⟩ := zeroPadded_isDigit _ _ c hc
    exact utf8Size_digit d hd

theorem formatChars_ascii (t : Time) : ∀ c ∈ formatChars t, c.utf8Size = 1 := by
  intro c hc
  unfold formatChars at hc
  simp only [List.mem_append, List.mem_singleton] at hc
  rcases hc with ((((((((hc | rfl) | hc) | rfl) | hc) | rfl) | hc) | hc) | hc)
  all_goals first
    | exact appendInt_ascii _ _ c hc
    | rfl

/-- The timestamp is the year field and thirteen further characters. -/
theorem formatChars_length (t : Time) :
    (formatChars t).length = (appendInt t.year 4).length + 13 := by
  have hm := t.month_ok
  have hd := t.day_ok
  have hdi : daysIn t.month t.year ≤ 31 := by unfold daysIn; split_ifs <;> omega
  have hh := t.hour_ok
  have hmi := t.minute_ok
  have hs := t.second_ok
  unfold formatChars
  rw [appendInt_nat_two _ (by omega : t.month < 100),
    appendInt_nat_two _ (by omega : t.day < 100), appendInt_nat_two _ (by omega : t.hour < 100),
    appendInt_nat_two _ (by omega : t.minute < 100),
    appendInt_nat_two _ (by omega : t.second < 100)]
  simp

theorem len_eq_utf8Len (s : String) : len s = String.utf8Len s.data := by
  cases s; rfl

theorem len_generateFileName_empty (t : Time) :
    len (GenerateFileName "" t) = (appendInt t.year 4).length + 16 := by
  rw [len_eq_utf8Len, generateFileName_empty, String.utf8Len_append,
    utf8Len_eq_length_of_ascii _ (formatChars_ascii t), formatChars_length]
  rfl

theorem len_generateFileName_titled (title : String) (t : Time) (h : title ≠ "") :
    len (GenerateFileName title t)
      = (appendInt t.year 4).length + 17 + len (cleanTitle title) := by
  rw [len_eq_utf8Len, len_eq_utf8Len, generateFileName_titled title t h, String.utf8Len_append,
    utf8Len_eq_length_of_ascii _ (formatChars_ascii t), formatChars_length,
    String.utf8Len_cons, String.utf8Len_append]
  have e1 : String.utf8Len ['.', 'm', 'd'] = 3 := rfl
  have e2 : Char.utf8Size '_' = 1 := rfl
  have e3 : (cleanTitle title).data = cleanTitleChars title.data := rfl
  rw [e1, e2, e3]
  omega

/-! ## Lemmas on telling file names apart -/

theorem digit_inj (a b : Nat) (ha : a < 10) (hb : b < 10) (h : digit a = digit b) : a = b := by
  have := congrArg digitVal h
  rwa [digitVal_digit a ha, digitVal_digit b hb] at this

theorem two_digits_inj (a b : Nat) (ha : a < 100) (hb : b < 100)
    (h1 : digit (a / 10) = digit (b / 10)) (h2 : digit (a % 10) = digit (b % 10)) : a = b := by
  have e1 := digit_inj _ _ (by omega) (by omega) h1
  have e2 := digit_inj _ _ (by omega) (by omega) h2
  omega

theorem digitsValue_zero_cons (l : List Char) : digitsValue ('0' :: l) = digitsValue l := by
  simp [digitsValue, digitVal]

theorem digitsValue_replicate_zero (k : Nat) (l : List Char) :
    digitsValue (List.replicate k '0' ++ l) = digitsValue l := by
  induction k with
  | zero => rfl
  | succ k ih => rw [List.replicate_succ, List.cons_append, digitsValue_zero_cons, ih]

theorem digitsValue_zeroPadded (width u : Nat) : digitsValue (zeroPadded width u) = u := by
  unfold zeroPadded
  simp only [← assembleDigits_eq_toDigits]
  rw [digitsValue_replicate_zero, digitsValue_assembleDigits]

theorem signedValue_of_digits (l : List Char) (h : ∀ c ∈ l, ∃ d, d < 10 ∧ c = digit d) :
    signedValue l = (digitsValue l : Int) := by
  cases l with
  | nil => rfl
  | cons c r =>
    obtain ⟨d, hd, rfl⟩ := h c (List.mem_cons_self _ _)
    have hne := digit_ne_hyphen d hd
    unfold signedValue
    split
    · rename_i heq
      exact absurd (List.cons.inj heq).1 hne
    · rfl

/-- Reading a field written by `appendInt` gives the number written. -/
theorem signedValue_appendInt (x : Int) (width : Nat) : signedValue (appendInt x width) = x := by
  rw [appendInt_eq_zeroPadded]
  by_cases hx : x < 0
  · rw [if_pos hx]
    show -(digitsValue (zeroPadded width x.natAbs) : Int) = x
    rw [digitsValue_zeroPadded]
    omega
  · rw [if_neg hx, List.nil_append, signedValue_of_digits _ (zeroPadded_isDigit _ _),
      digitsValue_zeroPadded]
    omega

theorem appendInt_ne_underscore (x : Int) (width : Nat) : ∀ c ∈ appendInt x width, c ≠ '_' := by
  intro c hc
  rw [appendInt_eq_zeroPadded] at hc
  rcases List.mem_append.mp hc with hc | hc
  · split_ifs at hc
    · have : c = '-' := by simpa using hc
      subst this; decide
    · simp at hc
  · obtain ⟨d, hd, rfl⟩ := zeroPadded_isDigit _ _ c hc
    exact digit_ne_underscore d hd

/-- The timestamp is a date part without underscore, an underscore, and six digits of
clock. -/
theorem formatChars_split (t : Time) :
    formatChars t =
      (appendInt t.year 4 ++ ['-', digit (t.month / 10), digit (t.month % 10), '-',
        digit (t.day / 10), digit (t.day % 10)])
      ++ '_' :: [digit (t.hour / 10), digit (t.hour % 10), digit (t.minute / 10),
        digit (t.minute % 10), digit (t.second / 10), digit (t.second % 10)] := by
  have hm := t.month_ok
  have hd := t.day_ok
  have hdi : daysIn t.month t.year ≤ 31 := by unfold daysIn; split_ifs <;> omega
  have hh := t.hour_ok
  have hmi := t.minute_ok
  have hs := t.second_ok
  unfold formatChars
  rw [appendInt_nat_two _ (by omega : t.month < 100),
    appendInt_nat_two _ (by omega : t.day < 100), appendInt_nat_two _ (by omega : t.hour < 100),
    appendInt_nat_two _ (by omega : t.minute < 100),
    appendInt_nat_two _ (by omega : t.second < 100)]
  simp

theorem takeWhile_date_part (t : Time) (rest : List Char) :
    ((appendInt t.year 4 ++ ['-', digit (t.month / 10), digit (t.month % 10), '-',
        digit (t.day / 10), digit (t.day % 10)]) ++ '_' :: rest).takeWhile (fun c => c != '_')
      = appendInt t.year 4 ++ ['-', digit (t.month / 10), digit (t.month % 10), '-',
        digit (t.day / 10), digit (t.day % 10)] := by
  have hm := t.month_ok
  have hd := t.day_ok
  have hdi : daysIn t.month t.year ≤ 31 := by unfold daysIn; split_ifs <;> omega
  rw [List.takeWhile_append_of_pos]
  · simp
  · intro c hc
    have hne : c ≠ '_' := by
      rcases List.mem_append.mp hc with hc | hc
      · exact appendInt_ne_underscore _ _ c hc
      · simp only [List.mem_cons, List.mem_singleton, List.not_mem_nil, or_false] at hc
        rcases hc with rfl | rfl | rfl | rfl | rfl | rfl
        · decide
        · exact digit_ne_underscore _ (by omega)
        · exact digit_ne_underscore _ (by omega)
        · decide
        · exact digit_ne_underscore _ (by omega)
        · exact digit_ne_underscore _ (by omega)
    simpa using hne

theorem generateFileName_data (title : String) (t : Time) :
    (GenerateFileName title t).data
      = formatChars t ++ (if title = "" then ['.', 'm', 'd']
          else '_' :: (cleanTitleChars title.data ++ ['.', 'm', 'd'])) := by
  by_cases h : title = ""
  · subst h
    rw [if_pos rfl]
    exact generateFileName_empty t
  · rw [if_neg h]
    exact generateFileName_titled title t h

theorem generateFileName_parts (title : String) (t : Time) :
    (GenerateFileName title t).data
      = (appendInt t.year 4 ++ ['-', digit (t.month / 10), digit (t.month % 10), '-',
          digit (t.day / 10), digit (t.day % 10)])
        ++ '_' :: ([digit (t.hour / 10), digit (t.hour % 10), digit (t.minute / 10),
          digit (t.minute % 10), digit (t.second / 10), digit (t.second % 10)]
        ++ (if title = "" then ['.', 'm', 'd']
          else '_' :: (cleanTitleChars title.data ++ ['.', 'm', 'd']))) := by
  rw [generateFileName_data, formatChars_split, List.append_assoc]
  rfl

/-- The characters the sanitizer is about to strip all become hyphens in the two
replacement steps. -/
theorem separator_to_hyphen (a : Char) (h : isSeparator a) :
    (if (if a = ' ' then '-' else a) ∈ specialChars then '-' else (if a = ' ' then '-' else a))
      = '-' := by
  by_cases ha : a = ' '
  · subst ha; decide
  · rw [if_neg ha]
    rcases h with h | h | h
    · exact absurd h ha
    · subst h; decide
    · rw [if_pos h]

theorem sanitizeSpec_eq_nil_iff (title : List Char) :
    sanitizeSpec title = [] ↔ ∀ c ∈ title, isSeparator c := by
  unfold sanitizeSpec
  rw [stripHyphens_eq_nil_iff]
  simp only [collapseHyphens_mem_iff, specialsToHyphens, spacesToHyphens, List.map_map,
    List.mem_map, Function.comp]
  constructor
  · intro h c hc
    by_contra hsep
    have hs : c ≠ ' ' := fun e => hsep (Or.inl e)
    have hh : c ≠ '-' := fun e => hsep (Or.inr (Or.inl e))
    have hp : c ∉ specialChars := fun e => hsep (Or.inr (Or.inr e))
    have := h c ⟨c, hc, by rw [if_neg hs, if_neg hp]⟩
    exact hh this
  · rintro h c ⟨a, ha, rfl⟩
    exact separator_to_hyphen a (h a ha)

/-! ## Lemmas on parsing a timestamp back -/

theorem getnum_two_digits (a b : Nat) (ha : a < 10) (hb : b < 10) (rest : List Char)
    (fixed : Bool) :
    getnum (digit a :: digit b :: rest) fixed = some (a * 10 + b, rest) := by
  simp [getnum, isDigit_digit a ha, isDigit_digit b hb, digitVal_digit a ha,
    digitVal_digit b hb]

/-- Parsing the seventeen characters written for in-range fields gives the fields. -/
theorem parse_digits (y m d h mi s : Nat) (hy : y < 10000) (hm : 1 ≤ m ∧ m ≤ 12)
    (hd : 1 ≤ d ∧ d ≤ daysIn m y) (hh : h < 24) (hmi : mi < 60) (hs : s < 60) :
    Parse [digit (y / 1000), digit (y / 100 % 10), digit (y / 10 % 10),
        digit (y % 10), '-', digit (m / 10), digit (m % 10), '-',
        digit (d / 10), digit (d % 10), '_', digit (h / 10), digit (h % 10),
        digit (mi / 10), digit (mi % 10), digit (s / 10), digit (s % 10)]
      = some ⟨y, m, d, h, mi, s, 0, hm, hd, hh, hmi, hs, by decide⟩ := by
  have hdi : daysIn m y ≤ 31 := by unfold daysIn; split_ifs <;> omega
  have ey : digitsValue [digit (y / 1000), digit (y / 100 % 10), digit (y / 10 % 10),
      digit (y % 10)] = y := by
    simp only [digitsValue, List.foldl_cons, List.foldl_nil]
    rw [digitVal_digit _ (by omega), digitVal_digit _ (by omega), digitVal_digit _ (by omega),
      digitVal_digit _ (by omega)]
    omega
  have em : m / 10 * 10 + m % 10 = m := by omega
  have ed : d / 10 * 10 + d % 10 = d := by omega
  have eh : h / 10 * 10 + h % 10 = h := by omega
  have emi : mi / 10 * 10 + mi % 10 = mi := by omega
  have es : s / 10 * 10 + s % 10 = s := by omega
  have i1 := isDigit_digit (y / 1000) (by omega)
  have i2 := isDigit_digit (y / 100 % 10) (by omega)
  have i3 := isDigit_digit (y / 10 % 10) (by omega)
  have i4 := isDigit_digit (y % 10) (by omega)
  have hskip : ∀ (c : Char) (r : List Char), skip (c :: r) c = some r := by
    intro c r; simp [skip]
  have gm := getnum_two_digits (m / 10) (m % 10) (by omega) (by omega)
  have gd := getnum_two_digits (d / 10) (d % 10) (by omega) (by omega)
  have gh := getnum_two_digits (h / 10) (h % 10) (by omega) (by omega)
  have gmi := getnum_two_digits (mi / 10) (mi % 10) (by omega) (by omega)
  have gs := getnum_two_digits (s / 10) (s % 10) (by omega) (by omega)
  rw [em] at gm
  rw [ed] at gd
  rw [eh] at gh
  rw [emi] at gmi
  rw [es] at gs
  have hf : fraction [] = (0, []) := rfl
  have hday : 1 ≤ d ∧ d ≤ daysIn m ↑(digitsValue [digit (y / 1000), digit (y / 100 % 10),
      digit (y / 10 % 10), digit (y % 10)]) := by rw [ey]; exact hd
  unfold Parse
  dsimp only
  rw [if_pos ⟨i1, i2, i3, i4⟩, hskip, Option.some_bind, gm, Option.some_bind]
  dsimp only
  rw [dif_pos hm, hskip, Option.some_bind, gd, Option.some_bind]
  dsimp only
  rw [hskip, Option.some_bind, gh, Option.some_bind]
  dsimp only
  rw [dif_pos hh, gmi, Option.some_bind]
  dsimp only
  rw [dif_pos hmi, gs, Option.some_bind]
  dsimp only
  rw [dif_pos hs, hf]
  dsimp only
  rw [if_neg (by simp), dif_pos hday, dif_pos (by decide)]
  simp only [Option.some.injEq, Time.mk.injEq, ey, and_self]

/-! ## Lemmas on the argument parser -/

/-- Away from the empty argument, an argument that does not begin with a hyphen is
taken as the title, unmodified. -/
theorem parseArgs_title (p a : String) (hne : a ≠ "") (h : a.data.head? ≠ some '-') :
    ParseArgs [p, a] = Outcome.returned ⟨CommandType.CommandTypeCreate, a⟩ none := by
  have h1 : a ≠ "--config" := by rintro rfl; exact h rfl
  have h2 : ¬ (a = "--help" ∨ a = "-h") := by rintro (rfl | rfl) <;> exact h rfl
  unfold ParseArgs
  simp only [if_neg h1, if_neg h2]
  split
  · rename_i hd
    exact absurd (String.ext hd) hne
  · rename_i c rest hd
    have hc : c ≠ '-' := by rintro rfl; rw [hd] at h; exact h rfl
    simp [hc]

/-! ## Lemmas on the filesystem -/

theorem walk_of_dirs_eq (fs fs' : FileSystem) (h : fs'.dirs = fs.dirs) :
    ∀ (es cur k : List String), walk fs cur es = .ok k → walk fs' cur es = .ok k := by
  have hdir : ∀ k, fs'.isDir k = fs.isDir k := by
    intro k; simp [FileSystem.isDir, h]
  intro es
  induction es with
  | nil => intro cur k hk; simpa [walk] using hk
  | cons e rest ih =>
    intro cur k hk
    unfold walk at hk ⊢
    rw [hdir]
    by_cases hc : fs.isDir cur = true
    · rw [if_pos hc] at hk ⊢
      exact ih _ _ hk
    · rw [if_neg hc] at hk
      split_ifs at hk

theorem resolve_of_dirs_eq (fs fs' : FileSystem) (hd : fs'.dirs = fs.dirs)
    (hc : fs'.cwd = fs.cwd) (path : String) (k : List String)
    (h : resolve fs path = .ok k) : resolve fs' path = .ok k := by
  unfold resolve at h ⊢
  by_cases hp : path = ""
  · rw [if_pos hp] at h; cases h
  · rw [if_neg hp] at h ⊢
    rw [hc]
    exact walk_of_dirs_eq fs fs' hd _ _ _ h

/-- A file that `os.WriteFile` has written is read back with the data written. -/
theorem readFile_writeFile (fs fs' : FileSystem) (name data : String)
    (h : WriteFile fs name data = .ok fs') : ReadFile fs' name = .ok data := by
  unfold WriteFile at h
  cases hr : resolve fs name with
  | error e => rw [hr] at h; cases h
  | ok k =>
    rw [hr] at h
    simp only at h
    by_cases hdir : fs.isDir k = true
    · rw [if_pos hdir] at h; cases h
    · rw [if_neg hdir] at h
      by_cases hslash : name.data.getLast? = some '/'
      · rw [if_pos hslash] at h; cases h
      · rw [if_neg hslash] at h
        injection h with h
        have hd : fs'.dirs = fs.dirs := by rw [← h]
        have hc : fs'.cwd = fs.cwd := by rw [← h]
        have hf : fs'.files = (k, data) :: fs.files.filter (fun f => f.1 ≠ k) := by rw [← h]
        have hdir' : ¬ fs'.isDir k = true := by
          simpa [FileSystem.isDir, hd] using hdir
        unfold ReadFile
        rw [resolve_of_dirs_eq fs fs' hd hc name k hr]
        simp only [if_neg hdir', hf, List.lookup_cons, beq_self_eq_true, if_neg hslash]

/-- Writing a file neither makes nor removes a directory, and keeps the working
directory. -/
theorem writeFile_dirs (fs fs' : FileSystem) (name data : String)
    (h : WriteFile fs name data = .ok fs') : fs'.dirs = fs.dirs ∧ fs'.cwd = fs.cwd := by
  unfold WriteFile at h
  cases hr : resolve fs name with
  | error e => rw [hr] at h; cases h
  | ok k =>
    rw [hr] at h
    simp only at h
    split_ifs at h
    injection h with h
    subst h
    exact ⟨rfl, rfl⟩

/-! ## Lemmas on home expansion -/

theorem hasPrefix_tilde_iff (path : String) :
    HasPrefix path "~/" = true ↔ ∃ rest : String, path = "~/" ++ rest := by
  unfold HasPrefix
  rw [List.isPrefixOf_iff_prefix]
  constructor
  · rintro ⟨r, hr⟩
    exact ⟨⟨r⟩, String.ext hr.symm⟩
  · rintro ⟨rest, rfl⟩
    exact ⟨rest.data, rfl⟩

theorem expandPath_tilde (h rest : String) :
    ExpandPath (some h) ("~/" ++ rest) = Outcome.returned (Join h rest) none := by
  have hp : HasPrefix ("~/" ++ rest) "~/" = true := (hasPrefix_tilde_iff _).mpr ⟨rest, rfl⟩
  have hlen : 2 ≤ len ("~/" ++ rest) := by
    rw [len_eq_utf8Len]
    show 2 ≤ String.utf8Len ('~' :: '/' :: rest.data)
    simp only [String.utf8Len_cons]
    have e1 : Char.utf8Size '~' = 1 := rfl
    have e2 : Char.utf8Size '/' = 1 := rfl
    omega
  unfold ExpandPath
  rw [if_pos hp]
  simp only [if_pos hlen]
  rfl

/-! ## The claims -/

/-- C1: for every timestamp and every non-empty title the file name is the timestamp,
an underscore, the sanitized segment `cleanTitle title` and `.md` (the segment is the
text after the first 18 characters and before the last 3 when the year has four
digits), and the segment contains no space and none of `/ \ : * ? " < > |`, no two
consecutive hyphens, and neither starts nor ends with a hyphen. -/
theorem C1_sanitized_segment (title : String) (t : Time) (h : title ≠ "") :
    GenerateFileName title t = Format t ++ "_" ++ cleanTitle title ++ ".md" ∧
    (0 ≤ t.year → t.year ≤ 9999 →
      ((GenerateFileName title t).data.drop 18).rdrop 3 = (cleanTitle title).data) ∧
    (∀ c ∈ (cleanTitle title).data, c ≠ ' ' ∧ c ∉ specialChars) ∧
    ¬ (['-', '-'] <:+: (cleanTitle title).data) ∧
    (cleanTitle title).data.head? ≠ some '-' ∧
    (cleanTitle title).data.getLast? ≠ some '-' := by
  have hdata : (cleanTitle title).data = sanitizeSpec title.data :=
    cleanTitleChars_eq_sanitizeSpec title.data
  refine ⟨?_, ?_, ?_, ?_, ?_, ?_⟩
  · unfold GenerateFileName
    simp only [if_neg h]
  · intro h0 h1
    rw [generateFileName_titled title t h, formatChars_four_digit_year t h0 h1]
    show ((cleanTitleChars title.data ++ ['.', 'm', 'd']).rdrop 3) = cleanTitleChars title.data
    simp [List.rdrop]
  · rw [hdata]; exact sanitizeSpec_clean _
  · rw [hdata]; exact sanitizeSpec_no_double _
  · rw [hdata]; exact stripHyphens_head _
  · rw [hdata]; exact stripHyphens_getLast _

/-- Witness of C1 at the title `my daily notes` of the tests. -/
theorem C1_sanitized_segment_witness :
    "my daily notes" ≠ "" ∧
    GenerateFileName "my daily notes" t20251225
      = Format t20251225 ++ "_" ++ cleanTitle "my daily notes" ++ ".md" ∧
    ((0 : Int) ≤ t20251225.year → t20251225.year ≤ 9999 →
      ((GenerateFileName "my daily notes" t20251225).data.drop 18).rdrop 3
        = (cleanTitle "my daily notes").data) ∧
    (∀ c ∈ (cleanTitle "my daily notes").data, c ≠ ' ' ∧ c ∉ specialChars) ∧
    ¬ (['-', '-'] <:+: (cleanTitle "my daily notes").data) ∧
    (cleanTitle "my daily notes").data.head? ≠ some '-' ∧
    (cleanTitle "my daily notes").data.getLast? ≠ some '-' :=
  ⟨by decide, C1_sanitized_segment "my daily notes" t20251225 (by decide)⟩

/-- C2: for every timestamp and every title `GenerateFileName` equals the reference
definition of the specification (zero-padded timestamp; `.md` appended for the empty
title; otherwise underscore, the title with spaces then special characters replaced by
hyphens, runs of hyphens collapsed, leading and trailing hyphens stripped, and `.md`),
and it gives the three documented file names. -/
theorem C2_generateFileName_refines_spec :
    (∀ (title : String) (t : Time), GenerateFileName title t = GenerateFileNameSpec title t) ∧
    GenerateFileName "shopping-list" t20250816 = "2025-08-16_143045_shopping-list.md" ∧
    GenerateFileName "my daily notes" t20251225 = "2025-12-25_090530_my-daily-notes.md" ∧
    GenerateFileName "notes/with\\special:chars" t20250101
      = "2025-01-01_000000_notes-with-special-chars.md" := by
  refine ⟨?_, by decide, by decide, by decide⟩
  intro title t
  unfold GenerateFileName GenerateFileNameSpec Format cleanTitle
  simp only [formatChars_eq_timestampSpec, cleanTitleChars_eq_sanitizeSpec]

/-- C3: on `["scratch-note", ""]`, an argument list of length 2 whose argument is
the empty string, `ParseArgs` does not return the Create intent with the empty title:
`args[1][0]` indexes past the end of the empty string and the call panics; on
`["scratch-note", "my notes"]` it returns Create with the title `my notes`. -/
theorem C3_parseArgs_empty_argument_panics :
    ParseArgs ["scratch-note", ""]
      = Outcome.panicked "runtime error: index out of range [0] with length 0" ∧
    ParseArgs ["scratch-note", ""]
      ≠ Outcome.returned ⟨CommandType.CommandTypeCreate, ""⟩ none ∧
    ParseArgs ["scratch-note", "my notes"]
      = Outcome.returned ⟨CommandType.CommandTypeCreate, "my notes"⟩ none := by
  refine ⟨by decide, by decide, by decide⟩

/-- C4: an argument list of length 2 whose argument begins with `-` and is none of
`--config`, `--help`, `-h` fails with the message `unknown flag: ` followed by the
argument; an argument list of length 3 or more fails with `too many arguments`; in
both cases the command returned is the zero `Command`. -/
theorem C4_parseArgs_errors :
    (∀ p a : String, a.data.head? = some '-' → a ≠ "--config" → a ≠ "--help" → a ≠ "-h" →
      ParseArgs [p, a] = Outcome.returned Command.zero (some ("unknown flag: " ++ a))) ∧
    (∀ args : List String, 3 ≤ args.length →
      ParseArgs args = Outcome.returned Command.zero (some "too many arguments")) ∧
    Command.zero = ⟨CommandType.CommandTypeCreate, ""⟩ := by
  refine ⟨?_, ?_, rfl⟩
  · intro p a hd h1 h2 h3
    have h23 : ¬ (a = "--help" ∨ a = "-h") := by rintro (h | h) <;> contradiction
    unfold ParseArgs
    simp only [if_neg h1, if_neg h23]
    split
    · rename_i hnil
      rw [hnil] at hd
      simp at hd
    · rename_i c rest hcons
      rw [hcons] at hd
      have hc : c = '-' := by simpa using hd
      simp [hc]
  · intro args hlen
    match args, hlen with
    | _ :: _ :: _ :: _, _ => rfl

/-- Witness of C4 at `["scratch-note", "--unknown"]`, `["scratch-note", "-"]` and
`["scratch-note", "--help", "arg2"]`. -/
theorem C4_parseArgs_errors_witness :
    ("--unknown".data.head? = some '-' ∧ "--unknown" ≠ "--config" ∧ "--unknown" ≠ "--help"
      ∧ "--unknown" ≠ "-h") ∧
    ParseArgs ["scratch-note", "--unknown"]
      = Outcome.returned Command.zero (some "unknown flag: --unknown") ∧
    ParseArgs ["scratch-note", "-"] = Outcome.returned Command.zero (some "unknown flag: -") ∧
    3 ≤ ["scratch-note", "--help", "arg2"].length ∧
    ParseArgs ["scratch-note", "--help", "arg2"]
      = Outcome.returned Command.zero (some "too many arguments") :=
  ⟨by decide,
    C4_parseArgs_errors.1 "scratch-note" "--unknown" (by decide) (by decide) (by decide)
      (by decide),
    C4_parseArgs_errors.1 "scratch-note" "-" (by decide) (by decide) (by decide) (by decide),
    by decide,
    C4_parseArgs_errors.2.1 ["scratch-note", "--help", "arg2"] (by decide)⟩

/-- C5: for every program-name token `p`, `ParseArgs [p]` is Create with the empty
title, `ParseArgs [p, "--config"]` is Config and `ParseArgs [p, "--help"]` and
`ParseArgs [p, "-h"]` are Help, all without error; Config and Help carry the empty
title, and no result depends on `p`. -/
theorem C5_parseArgs_recognised (p : String) :
    ParseArgs [p] = Outcome.returned ⟨CommandType.CommandTypeCreate, ""⟩ none ∧
    ParseArgs [p, "--config"] = Outcome.returned ⟨CommandType.CommandTypeConfig, ""⟩ none ∧
    ParseArgs [p, "--help"] = Outcome.returned ⟨CommandType.CommandTypeHelp, ""⟩ none ∧
    ParseArgs [p, "-h"] = Outcome.returned ⟨CommandType.CommandTypeHelp, ""⟩ none :=
  ⟨rfl, rfl, rfl, rfl⟩

/-- C6 counterexample: for `time.Date(10000, 1, 1, 0, 0, 0, 0, time.UTC)` the untitled
file name is `10000-01-01_000000.md`, of length 21, not 20. -/
theorem C6_counterexample :
    GenerateFileName "" t100000101 = "10000-01-01_000000.md" ∧
    ¬ (len (GenerateFileName "" t100000101) = 20 ∧
        HasSuffix (GenerateFileName "" t100000101) ".md" = true) := by
  refine ⟨by decide, by decide⟩

/-- C6, amended: for every timestamp `GenerateFileName "" t` ends with `.md`; for every
timestamp whose year is within 0..9999 it has length exactly 20, and for no other
timestamp. -/
theorem C6_untitled_length :
    (∀ t : Time, HasSuffix (GenerateFileName "" t) ".md" = true) ∧
    (∀ t : Time, 0 ≤ t.year → t.year ≤ 9999 → len (GenerateFileName "" t) = 20) ∧
    (∀ t : Time, len (GenerateFileName "" t) = 20 → 0 ≤ t.year ∧ t.year ≤ 9999) := by
  refine ⟨?_, ?_, ?_⟩
  · intro t
    unfold HasSuffix
    rw [List.isSuffixOf_iff_suffix, generateFileName_empty]
    exact List.suffix_append _ _
  · intro t h0 h1
    rw [len_generateFileName_empty, ((appendInt_year_length t.year).2).mpr ⟨h0, h1⟩]
  · intro t h
    rw [len_generateFileName_empty] at h
    exact ((appendInt_year_length t.year).2).mp (by omega)

/-- Witness of C6 at `time.Date(2025, 8, 16, 14, 30, 45, 0, time.UTC)`. -/
theorem C6_untitled_length_witness :
    ((0 : Int) ≤ t20250816.year ∧ t20250816.year ≤ 9999) ∧
    len (GenerateFileName "" t20250816) = 20 :=
  ⟨by decide, C6_untitled_length.2.1 t20250816 (by decide) (by decide)⟩

/-- C7 counterexample: for `time.Date(10000, 1, 1, 0, 0, 0, 0, time.UTC)` the first 17
characters of the untitled file name are `10000-01-01_00000`, which is not the
formatted timestamp `10000-01-01_000000`, and parsing them with the layout fails. -/
theorem C7_counterexample :
    (GenerateFileName "" t100000101).data.take 17 = "10000-01-01_00000".data ∧
    Format t100000101 = "10000-01-01_000000" ∧
    Parse ((GenerateFileName "" t100000101).data.take 17) = none ∧
    ¬ ((GenerateFileName "" t100000101).data.take 17 = (Format t100000101).data ∧
        Parse ((GenerateFileName "" t100000101).data.take 17)
          = some t100000101.truncateSecond) := by
  refine ⟨by decide, by decide, by rfl, ?_⟩
  rintro ⟨h, -⟩
  revert h
  decide

/-- C7, amended: for every timestamp whose year is within 0..9999, the first 17
characters of `GenerateFileName "" t` are exactly `t` formatted with the layout
`2006-01-02_150405`, and parsing them back with the same layout succeeds and yields
`t` with the sub-second part dropped. -/
theorem C7_timestamp_roundtrip (t : Time) (h0 : 0 ≤ t.year) (h1 : t.year ≤ 9999) :
    (GenerateFileName "" t).data.take 17 = (Format t).data ∧
    Parse ((GenerateFileName "" t).data.take 17) = some t.truncateSecond := by
  have hy : ((t.year.natAbs : Nat) : Int) = t.year := Int.natAbs_of_nonneg h0
  have htake : (GenerateFileName "" t).data.take 17 = formatChars t := by
    rw [generateFileName_empty, formatChars_four_digit_year t h0 h1]
    rfl
  refine ⟨htake, ?_⟩
  rw [htake, formatChars_four_digit_year t h0 h1,
    parse_digits t.year.natAbs t.month t.day t.hour t.minute t.second (by omega) t.month_ok
      (by rw [hy]; exact t.day_ok) t.hour_ok t.minute_ok t.second_ok]
  simp only [Time.truncateSecond, Option.some.injEq, Time.mk.injEq, hy, and_self]

/-- Witness of C7 at `time.Date(2025, 8, 16, 14, 30, 45, 0, time.UTC)`. -/
theorem C7_timestamp_roundtrip_witness :
    ((0 : Int) ≤ t20250816.year ∧ t20250816.year ≤ 9999) ∧
    (GenerateFileName "" t20250816).data.take 17 = (Format t20250816).data ∧
    Parse ((GenerateFileName "" t20250816).data.take 17) = some t20250816.truncateSecond :=
  ⟨by decide, C7_timestamp_roundtrip t20250816 (by decide) (by decide)⟩

/-- C8: for every timestamp and every non-empty title, `GenerateFileName title t` is
strictly longer than 20 and strictly longer than the untitled name for the same
timestamp. -/
theorem C8_titled_longer (title : String) (t : Time) (h : title ≠ "") :
    20 < len (GenerateFileName title t) ∧
    len (GenerateFileName "" t) < len (GenerateFileName title t) := by
  rw [len_generateFileName_titled title t h, len_generateFileName_empty]
  have := (appendInt_year_length t.year).1
  omega

/-- Witness of C8 at the title `x`. -/
theorem C8_titled_longer_witness :
    "x" ≠ "" ∧ 20 < len (GenerateFileName "x" t20250816) ∧
    len (GenerateFileName "" t20250816) < len (GenerateFileName "x" t20250816) :=
  ⟨by decide, C8_titled_longer "x" t20250816 (by decide)⟩

/-- C9 counterexample: for the title of one space and
`time.Date(10000, 1, 1, 0, 0, 0, 0, time.UTC)` the file name is
`10000-01-01_000000_.md`, which is no text of 17 characters followed by `_.md`. -/
theorem C9_counterexample :
    GenerateFileName " " t100000101 = "10000-01-01_000000_.md" ∧
    ¬ ∃ ts : String, ts.length = 17 ∧ GenerateFileName " " t100000101 = ts ++ "_.md" := by
  have hname : GenerateFileName " " t100000101 = "10000-01-01_000000_.md" := by decide
  refine ⟨hname, ?_⟩
  rintro ⟨ts, hlen, heq⟩
  rw [hname] at heq
  have h := congrArg String.length heq
  rw [String.length_append, hlen] at h
  revert h
  decide

/-- C9, amended: `GenerateFileName` is total; for every timestamp and every non-empty
title made only of spaces, hyphens and the characters `/ \ : * ? " < > |` the
sanitized segment is empty and the file name is the formatted timestamp followed by
`_.md`, the timestamp having 17 characters when the year is within 0..9999;
conversely every title with a character outside that set has a non-empty sanitized
segment. -/
theorem C9_separator_titles :
    (∀ (title : String) (t : Time), title ≠ "" → (∀ c ∈ title.data, isSeparator c) →
      cleanTitle title = "" ∧ GenerateFileName title t = Format t ++ "_.md" ∧
      (0 ≤ t.year → t.year ≤ 9999 → (Format t).length = 17)) ∧
    (∀ title : String, (∃ c ∈ title.data, ¬ isSeparator c) → cleanTitle title ≠ "") := by
  constructor
  · intro title t hne hsep
    have hclean : cleanTitleChars title.data = [] := by
      rw [cleanTitleChars_eq_sanitizeSpec]
      exact (sanitizeSpec_eq_nil_iff _).mpr hsep
    refine ⟨String.ext hclean, ?_, ?_⟩
    · apply String.ext
      rw [generateFileName_titled title t hne, hclean]
      rfl
    · intro h0 h1
      show (formatChars t).length = 17
      rw [formatChars_length, ((appendInt_year_length t.year).2).mpr ⟨h0, h1⟩]
  · rintro title ⟨c, hc, hsep⟩ hempty
    have hnil : sanitizeSpec title.data = [] := by
      rw [← cleanTitleChars_eq_sanitizeSpec]
      exact congrArg String.data hempty
    exact hsep ((sanitizeSpec_eq_nil_iff _).mp hnil c hc)

/-- Witness of C9 at the title ` :-*` and, for the converse, the title `-a-`. -/
theorem C9_separator_titles_witness :
    (" :-*" ≠ "" ∧ ∀ c ∈ " :-*".data, isSeparator c) ∧
    (cleanTitle " :-*" = "" ∧ GenerateFileName " :-*" t20250816 = Format t20250816 ++ "_.md" ∧
      (0 ≤ t20250816.year → t20250816.year ≤ 9999 → (Format t20250816).length = 17)) ∧
    (∃ c ∈ "-a-".data, ¬ isSeparator c) ∧ cleanTitle "-a-" ≠ "" :=
  ⟨⟨by decide, by decide⟩,
    C9_separator_titles.1 " :-*" t20250816 (by decide) (by decide),
    ⟨'a', by decide, by decide⟩,
    C9_separator_titles.2 "-a-" ⟨'a', by decide, by decide⟩⟩

/-- C10 counterexample: the distinct titles `a b` and `a-b` give the same file name
for the same timestamp. -/
theorem C10_counterexample :
    GenerateFileName "a b" t20250816 = GenerateFileName "a-b" t20250816 ∧
    ¬ (GenerateFileName "a b" t20250816 = GenerateFileName "a-b" t20250816 →
        t20250816.truncateSecond = t20250816.truncateSecond ∧ ("a b" : String) = "a-b") := by
  have heq : GenerateFileName "a b" t20250816 = GenerateFileName "a-b" t20250816 := by decide
  refine ⟨heq, fun h => ?_⟩
  have hne : ("a b" : String) ≠ "a-b" := by decide
  exact hne (h heq).2

/-- C10, amended: generated file names collide only for the same whole second and
titles that sanitize alike: if `GenerateFileName a t = GenerateFileName b u` then `t`
and `u` have the same second-level representation, `a` and `b` have the same
sanitized title, and `a` is empty exactly when `b` is. -/
theorem C10_collision (a b : String) (t u : Time)
    (h : GenerateFileName a t = GenerateFileName b u) :
    t.truncateSecond = u.truncateSecond ∧ cleanTitle a = cleanTitle b ∧ (a = "" ↔ b = "") := by
  have hmt := t.month_ok
  have hdt := t.day_ok
  have hdit : daysIn t.month t.year ≤ 31 := by unfold daysIn; split_ifs <;> omega
  have hmu := u.month_ok
  have hdu := u.day_ok
  have hdiu : daysIn u.month u.year ≤ 31 := by unfold daysIn; split_ifs <;> omega
  have hht := t.hour_ok
  have hhu := u.hour_ok
  have hmit := t.minute_ok
  have hmiu := u.minute_ok
  have hst := t.second_ok
  have hsu := u.second_ok
  have hd := congrArg String.data h
  rw [generateFileName_parts, generateFileName_parts] at hd
  -- the date part is what precedes the first underscore
  have hP := congrArg (List.takeWhile (fun c => c != '_')) hd
  rw [takeWhile_date_part, takeWhile_date_part] at hP
  rw [hP] at hd
  have hrest := (List.cons.inj (List.append_cancel_left hd)).2
  obtain ⟨hQ, hR⟩ := List.append_inj hrest rfl
  obtain ⟨hY, hMD⟩ := List.append_inj' hP rfl
  have hyear : t.year = u.year := by
    have := congrArg signedValue hY
    rwa [signedValue_appendInt, signedValue_appendInt] at this
  simp only [List.cons.injEq, and_true, true_and] at hMD hQ
  have hmonth : t.month = u.month :=
    two_digits_inj _ _ (by omega) (by omega) hMD.1 hMD.2.1
  have hday : t.day = u.day :=
    two_digits_inj _ _ (by omega) (by omega) hMD.2.2.1 hMD.2.2.2
  have hhour : t.hour = u.hour :=
    two_digits_inj _ _ (by omega) (by omega) hQ.1 hQ.2.1
  have hminute : t.minute = u.minute :=
    two_digits_inj _ _ (by omega) (by omega) hQ.2.2.1 hQ.2.2.2.1
  have hsecond : t.second = u.second :=
    two_digits_inj _ _ (by omega) (by omega) hQ.2.2.2.2.1 hQ.2.2.2.2.2
  refine ⟨?_, ?_⟩
  · simp only [Time.truncateSecond, Time.mk.injEq, and_true]
    exact ⟨hyear, hmonth, hday, hhour, hminute, hsecond⟩
  · by_cases ha : a = "" <;> by_cases hb : b = ""
    · subst ha; subst hb
      exact ⟨rfl, Iff.rfl⟩
    · rw [if_pos ha, if_neg hb] at hR
      exact absurd (List.cons.inj hR).1 (by decide)
    · rw [if_neg ha, if_pos hb] at hR
      exact absurd (List.cons.inj hR).1 (by decide)
    · rw [if_neg ha, if_neg hb] at hR
      have := List.append_cancel_right (List.cons.inj hR).2
      exact ⟨String.ext this, ⟨fun e => absurd e ha, fun e => absurd e hb⟩⟩

/-- Witness of C10 at the titles `a b` and `a-b`, which collide. -/
theorem C10_collision_witness :
    GenerateFileName "a b" t20250816 = GenerateFileName "a-b" t20250816 ∧
    t20250816.truncateSecond = t20250816.truncateSecond ∧
    cleanTitle "a b" = cleanTitle "a-b" ∧ (("a b" : String) = "" ↔ ("a-b" : String) = "") :=
  ⟨by decide, C10_collision "a b" "a-b" t20250816 t20250816 (by decide)⟩

/-- C11 counterexample: in a working directory that holds the regular file `plain`,
nothing is found at `plain/notes` (`os.Stat` fails with `ENOTDIR`), yet
`CreateScratchNote` called with that directory does not fail with the
directory-not-found error: it goes on to write the file and reports
`failed to create file`. -/
theorem C11_counterexample :
    Stat testWorld.fs "plain/notes" = .error Errno.ENOTDIR ∧
    CreateScratchNote "" "plain/notes" t20250816 (MockEditor false) testWorld
      = (("", some (GoError.errorString
          "failed to create file: open plain/notes/2025-08-16_143045.md: not a directory")),
        testWorld) ∧
    (CreateScratchNote "" "plain/notes" t20250816 (MockEditor false) testWorld).1.2
      ≠ some (GoError.errorString ("scratch-note directory does not exist: " ++ "plain/notes")) := by
  refine ⟨rfl, by decide, by decide⟩

/-- C11, amended: for every title, timestamp and editor, `CreateScratchNote` called with
a directory of which `os.Stat` reports that it does not exist (`ENOENT`) fails with the
error of message `scratch-note directory does not exist: ` followed by the directory,
returns the empty path, leaves the filesystem unchanged and launches no editor. -/
theorem C11_missing_directory (title directory : String) (t : Time) (editor : EditorLauncher)
    (w : World) (h : Stat w.fs directory = .error Errno.ENOENT) :
    CreateScratchNote title directory t editor w
      = (("", some (GoError.errorString
          ("scratch-note directory does not exist: " ++ directory))), w) ∧
    (CreateScratchNote title directory t editor w).1.1 = "" ∧
    ((CreateScratchNote title directory t editor w).1.2.map GoError.Error)
      = some ("scratch-note directory does not exist: " ++ directory) ∧
    (CreateScratchNote title directory t editor w).2.fs = w.fs ∧
    (CreateScratchNote title directory t editor w).2.launched = w.launched := by
  have hrun : CreateScratchNote title directory t editor w
      = (("", some (GoError.errorString
          ("scratch-note directory does not exist: " ++ directory))), w) := by
    unfold CreateScratchNote
    simp only [h, IsNotExist, decide_True, if_true]
  rw [hrun]
  exact ⟨rfl, rfl, rfl, rfl, rfl⟩

/-- Witness of C11 at the directory `nope`, of which nothing is found. -/
theorem C11_missing_directory_witness :
    Stat testWorld.fs "nope" = .error Errno.ENOENT ∧
    CreateScratchNote "x y" "nope" t20250816 removingEditor testWorld
      = (("", some (GoError.errorString
          ("scratch-note directory does not exist: " ++ "nope"))), testWorld) ∧
    (CreateScratchNote "x y" "nope" t20250816 removingEditor testWorld).1.1 = "" ∧
    ((CreateScratchNote "x y" "nope" t20250816 removingEditor testWorld).1.2.map GoError.Error)
      = some ("scratch-note directory does not exist: " ++ "nope") ∧
    (CreateScratchNote "x y" "nope" t20250816 removingEditor testWorld).2.fs = testWorld.fs ∧
    (CreateScratchNote "x y" "nope" t20250816 removingEditor testWorld).2.launched
      = testWorld.launched :=
  ⟨rfl, C11_missing_directory "x y" "nope" t20250816 removingEditor testWorld rfl⟩

/-- C12 counterexample: the directory `notes` exists and the file can be created, the
editor removes the file it is given and fails with an `EditorError`;
`CreateScratchNote` returns that error and the empty path, and the file it created is
not on disk. -/
theorem C12_counterexample :
    Stat testWorld.fs "notes" = .ok FileInfo.directory ∧
    (∃ fs, WriteFile testWorld.fs "notes/2025-08-16_143045_x-y.md" "" = .ok fs) ∧
    (CreateScratchNote "x y" "notes" t20250816 removingEditor testWorld).1
      = ("", some (GoError.EditorError "remover" "exit status 1")) ∧
    ReadFile (CreateScratchNote "x y" "notes" t20250816 removingEditor testWorld).2.fs
        "notes/2025-08-16_143045_x-y.md" = .error Errno.ENOENT := by
  refine ⟨rfl, ⟨_, rfl⟩, by decide, rfl⟩

/-- C12, amended: when the directory exists, the file can be created and the editor's
`Launch` fails with an `EditorError`, `CreateScratchNote` returns exactly that error
together with the empty path; the file at `directory/GenerateFileName(title, t)` is
on disk with empty content when the editor is launched, and `CreateScratchNote`
leaves the filesystem as the editor left it, so the empty file remains whenever the
editor has left it as it found it. -/
theorem C12_editor_failure (title directory : String) (t : Time) (editor : EditorLauncher)
    (w : World) (fs fs' : FileSystem) (name msg : String)
    (hdir : Stat w.fs directory = .ok FileInfo.directory)
    (hwrite : WriteFile w.fs (Join directory (GenerateFileName title t)) "" = .ok fs)
    (hlaunch : editor.Launch (Join directory (GenerateFileName title t)) fs
      = (fs', some (GoError.EditorError name msg))) :
    CreateScratchNote title directory t editor w
      = (("", some (GoError.EditorError name msg)),
        ⟨fs', w.launched ++ [(Join directory (GenerateFileName title t), fs)]⟩) ∧
    ReadFile fs (Join directory (GenerateFileName title t)) = .ok "" ∧
    (ReadFile fs' (Join directory (GenerateFileName title t))
        = ReadFile fs (Join directory (GenerateFileName title t)) →
      ReadFile (CreateScratchNote title directory t editor w).2.fs
        (Join directory (GenerateFileName title t)) = .ok "") := by
  have hread := readFile_writeFile _ _ _ _ hwrite
  have hrun : CreateScratchNote title directory t editor w
      = (("", some (GoError.EditorError name msg)),
        ⟨fs', w.launched ++ [(Join directory (GenerateFileName title t), fs)]⟩) := by
    unfold CreateScratchNote
    simp only [hdir, Bool.false_eq_true, if_false, hwrite, launch, hlaunch]
  refine ⟨hrun, hread, ?_⟩
  intro hsame
  rw [hrun]
  exact hsame.trans hread

/-- Witness of C12 with the failing `MockEditor` of the tests. -/
theorem C12_editor_failure_witness :
    (Stat testWorld.fs "notes" = .ok FileInfo.directory ∧
      WriteFile testWorld.fs (Join "notes" (GenerateFileName "" t20250816)) "" = .ok notedFs ∧
      (MockEditor true).Launch (Join "notes" (GenerateFileName "" t20250816)) notedFs
        = (notedFs, some (GoError.EditorError "mock-editor" "command not found"))) ∧
    CreateScratchNote "" "notes" t20250816 (MockEditor true) testWorld
      = (("", some (GoError.EditorError "mock-editor" "command not found")),
        ⟨notedFs, testWorld.launched
          ++ [(Join "notes" (GenerateFileName "" t20250816), notedFs)]⟩) ∧
    ReadFile (CreateScratchNote "" "notes" t20250816 (MockEditor true) testWorld).2.fs
      (Join "notes" (GenerateFileName "" t20250816)) = .ok "" :=
  have h := C12_editor_failure "" "notes" t20250816 (MockEditor true) testWorld notedFs notedFs
    "mock-editor" "command not found" rfl rfl rfl
  ⟨⟨rfl, rfl, rfl⟩, h.1, h.2.2 rfl⟩

/-- C13: when the directory exists, the write of the file succeeds and the editor
succeeds, `CreateScratchNote` returns without error the path `directory` joined with
`GenerateFileName title t`; the editor is launched exactly once, with that path, and
at the moment of the launch the file at that path holds the empty content, whatever
was there before. -/
theorem C13_note_created (title directory : String) (t : Time) (editor : EditorLauncher)
    (w : World) (fs fs' : FileSystem)
    (hdir : Stat w.fs directory = .ok FileInfo.directory)
    (hwrite : WriteFile w.fs (Join directory (GenerateFileName title t)) "" = .ok fs)
    (hlaunch : editor.Launch (Join directory (GenerateFileName title t)) fs = (fs', none)) :
    CreateScratchNote title directory t editor w
      = ((Join directory (GenerateFileName title t), none),
        ⟨fs', w.launched ++ [(Join directory (GenerateFileName title t), fs)]⟩) ∧
    (CreateScratchNote title directory t editor w).2.launched
      = w.launched ++ [((CreateScratchNote title directory t editor w).1.1, fs)] ∧
    ReadFile fs (Join directory (GenerateFileName title t)) = .ok "" := by
  have hrun : CreateScratchNote title directory t editor w
      = ((Join directory (GenerateFileName title t), none),
        ⟨fs', w.launched ++ [(Join directory (GenerateFileName title t), fs)]⟩) := by
    unfold CreateScratchNote
    simp only [hdir, Bool.false_eq_true, if_false, hwrite, launch, hlaunch]
  refine ⟨hrun, ?_, readFile_writeFile _ _ _ _ hwrite⟩
  rw [hrun]

/-- Witness of C13 with the `MockEditor` of the tests, in a state where a file of the
same name is there with content: it is truncated. -/
theorem C13_note_created_witness :
    (Stat takenWorld.fs "notes" = .ok FileInfo.directory ∧
      ReadFile takenWorld.fs "notes/2025-08-16_143045.md" = .ok "old text" ∧
      WriteFile takenWorld.fs (Join "notes" (GenerateFileName "" t20250816)) "" = .ok notedFs ∧
      (MockEditor false).Launch (Join "notes" (GenerateFileName "" t20250816)) notedFs
        = (notedFs, none)) ∧
    CreateScratchNote "" "notes" t20250816 (MockEditor false) takenWorld
      = ((Join "notes" (GenerateFileName "" t20250816), none),
        ⟨notedFs, takenWorld.launched
          ++ [(Join "notes" (GenerateFileName "" t20250816), notedFs)]⟩) ∧
    (CreateScratchNote "" "notes" t20250816 (MockEditor false) takenWorld).2.launched
      = takenWorld.launched
        ++ [((CreateScratchNote "" "notes" t20250816 (MockEditor false) takenWorld).1.1,
          notedFs)] ∧
    ReadFile notedFs (Join "notes" (GenerateFileName "" t20250816)) = .ok "" :=
  ⟨⟨rfl, rfl, rfl, rfl⟩,
    C13_note_created "" "notes" t20250816 (MockEditor false) takenWorld notedFs notedFs
      rfl rfl rfl⟩

/-- C14: with the result of the home-directory lookup given as an optional value,
`ExpandPath` never fails; a path that does not begin with `~/` is returned unchanged;
a path `~/` followed by `rest` gives the home directory joined with `rest` when the
home directory resolves and is returned unchanged when it does not. -/
theorem C14_expandPath :
    (∀ (home : Option String) (path : String),
      ∃ s, ExpandPath home path = Outcome.returned s none) ∧
    (∀ (home : Option String) (path : String), HasPrefix path "~/" = false →
      ExpandPath home path = Outcome.returned path none) ∧
    (∀ h rest : String, ExpandPath (some h) ("~/" ++ rest) = Outcome.returned (Join h rest) none) ∧
    (∀ rest : String, ExpandPath none ("~/" ++ rest) = Outcome.returned ("~/" ++ rest) none) := by
  have hplain : ∀ (home : Option String) (path : String), HasPrefix path "~/" = false →
      ExpandPath home path = Outcome.returned path none := by
    intro home path hp
    unfold ExpandPath
    simp [hp]
  have hnone : ∀ rest : String,
      ExpandPath none ("~/" ++ rest) = Outcome.returned ("~/" ++ rest) none := by
    intro rest
    have hp : HasPrefix ("~/" ++ rest) "~/" = true := (hasPrefix_tilde_iff _).mpr ⟨rest, rfl⟩
    unfold ExpandPath
    rw [if_pos hp]
  refine ⟨?_, hplain, expandPath_tilde, hnone⟩
  intro home path
  by_cases hp : HasPrefix path "~/" = true
  · obtain ⟨rest, rfl⟩ := (hasPrefix_tilde_iff path).mp hp
    cases home with
    | none => exact ⟨_, hnone rest⟩
    | some h => exact ⟨_, expandPath_tilde h rest⟩
  · exact ⟨path, hplain home path (by simpa using hp)⟩

/-- Witness of C14 at the paths of the tests and at the bare `~`, with the home
directory `/home/user`. -/
theorem C14_expandPath_witness :
    (HasPrefix "/absolute/path" "~/" = false ∧ HasPrefix "relative/path" "~/" = false
      ∧ HasPrefix "~" "~/" = false) ∧
    ExpandPath (some "/home/user") "/absolute/path" = Outcome.returned "/absolute/path" none ∧
    ExpandPath (some "/home/user") "relative/path" = Outcome.returned "relative/path" none ∧
    ExpandPath (some "/home/user") "~" = Outcome.returned "~" none ∧
    ExpandPath (some "/home/user") "~/scratch-notes"
      = Outcome.returned (Join "/home/user" "scratch-notes") none ∧
    Join "/home/user" "scratch-notes" = "/home/user/scratch-notes" ∧
    ExpandPath none "~/scratch-notes" = Outcome.returned "~/scratch-notes" none :=
  ⟨by decide,
    C14_expandPath.2.1 (some "/home/user") "/absolute/path" (by decide),
    C14_expandPath.2.1 (some "/home/user") "relative/path" (by decide),
    C14_expandPath.2.1 (some "/home/user") "~" (by decide),
    C14_expandPath.2.2.1 "/home/user" "scratch-notes",
    by decide,
    C14_expandPath.2.2.2 "scratch-notes"⟩

end ScratchNote
